import Mathlib

/-!
The push workflow of `lib/backend-update.js`.

A shallow embedding of `lib/backend-update.js`: the staleness decision
(`isNewUpdateNeeded`), the conflict guard (`checkLatestInCloud`), the
pre-update join (`preUpdateAction`), the submission (`updateBackendProject`)
and the status poller (`waitForCloudAPIComplete`, `cloudApiWaitLoop`).

The module-level variables of the file are the fields of `World`; every
function of the file is a transformer of `World`, and a JavaScript callback
is a Lean continuation.  What the collaborators of the file answer
(prompts, the file system, the remote service, the feature hooks) is read
from an `Env`.  Every call of a collaborator is appended to `World.trace`.
Console output and the spinner are not modelled.
-/

namespace BackendUpdate

/-! ## Data -/

/-- A `moment` value: `some ms` is a valid instant (milliseconds since the
epoch), `none` is what `moment` calls an invalid date. -/
abbrev Moment := Option Int

/-- Method `isValid` of a `moment` value. -/
def Moment.isValid (m : Moment) : Bool := m.isSome

/-- Method `isBefore` of a `moment` value: false as soon as one side is
invalid, otherwise the strict comparison of the two instants. -/
def Moment.isBefore (a b : Moment) : Bool :=
  match a, b with
  | some x, some y => decide (x < y)
  | _, _ => false

/-- The fields of the project record that the file reads or writes. -/
structure ProjectInfo where
  ProjectPath : String
  BackendProjectID : String
  BackendProjectName : String
  BackendLastUpdateTime : String
  BackendLastUpdateSuccessful : Bool
  deriving DecidableEq, Repr

/-- The details of the backend project, as the remote service returns them. -/
structure BackendDetails where
  name : String
  consoleUrl : String
  formationState : Option String
  deriving DecidableEq, Repr

/-- The error object `{code: n}` that the poller hands to its callback. -/
structure PollError where
  code : Int
  deriving DecidableEq, Repr

/-- The argument `param` of `mobile.describeProject`. -/
structure Param where
  projectId : String
  syncFromResources : Bool
  deriving DecidableEq, Repr

/-- An exception that no handler of the file catches. -/
inductive JsError where
  | ReferenceError
  | TypeError
  deriving DecidableEq, Repr

/-- What `mobile.updateProject` hands to its callback: an error, or `data`
whose field `details` may be missing. -/
inductive UpdateResult where
  | err
  | data (details : Option BackendDetails)
  deriving DecidableEq, Repr

/-- What `mobile.describeProject` hands to its callback: an error, or `data`
with its field `details`; `pending` is a query that is never answered. -/
inductive DescribeResult where
  | err
  | data (details : BackendDetails)
  | pending
  deriving DecidableEq, Repr

/-- The calls the file makes to its collaborators, in the order it makes
them.  `isNewUpdateNeeded` marks the evaluation of the staleness check at
line 126, `report` is written by the recording callback `report` only. -/
inductive Event where
  | checkAWSConfig
  | getLatestBackendDetails (projectId : String)
  | setBackendDetails (projectPath : String) (details : BackendDetails) (flag : Bool)
  | prompt (name : String)
  | opn (url : String)
  | createBackendProject
  | build
  | isNewUpdateNeeded (result : Bool)
  | preBackendUpdate (featureName : String)
  | readFileSync
  | updateProject (projectId : String)
  | handleMobileException
  | setProjectInfo (info : ProjectInfo)
  | describeProject (param : Param)
  | setTimeout (ms : Nat)
  | syncCurrentBackendInfo (details : BackendDetails)
  | callback
  | report (err : Option PollError) (details : BackendDetails)
  deriving DecidableEq, Repr

/-- The client `awsClient.Mobile()`: `describeProject k` is the answer to the
query number `k` (from 0) made through the client. -/
structure Mobile where
  updateProject : UpdateResult
  describeProject : Nat → DescribeResult

/-- The two functions of `backend-operations/ops-cloud-api.js` that the
file calls, and its `featureName`; their code is not in this file. -/
structure OpsCloudApi where
  featureName : String
  getFormationStateSummary : BackendDetails → Option String
  getStateGroup : String → Int

/-- What the collaborators of the file answer during one run.
`checkAWSConfig`, `getLatestBackendDetails`, `build`, `createBackendProject`
and `syncCurrentBackendInfo` call the function they are given once; the
prompts are answered.  A hook may call its callback while it is being
started, inside the `forEach` of line 167: `hookSyncCalls f` is the number
of times `preBackendUpdate` of the feature `f` does so.  `hookReports`
lists, in the order of the reports, the features whose hook calls its
callback after the `forEach` has ended (a feature that is absent makes no
such report).  `parseTime s` is `moment(s, DateTimeFormatString)`, `now` is
`moment().format(DateTimeFormatString)`. -/
structure Env where
  awsConfig : String
  latestBackendDetails : BackendDetails
  checkBackendProjectLastUpdateTime : ProjectInfo → BackendDetails → Bool
  createBackend : Bool
  forcePush : Bool
  openConsole : Bool
  existsSync : Bool
  parseTime : String → Moment
  dirContentMTime : Moment
  now : String
  enabledFeatures : Option (List String)
  hookSyncCalls : String → Nat
  hookReports : List String
  mobile : Mobile
  ops : OpsCloudApi

/-- The module-level variables of the file (lines 37-44), followed by what
lives outside the module: the project record on disk, the number of status
queries made so far, the calls made so far and the uncaught exception, if
one was thrown. -/
structure World where
  _projectInfo : Option ProjectInfo
  _awsConfig : Option String
  _backendProjectDetails : Option BackendDetails
  _waitFlag : Option Int
  _syncToDevFlag : Bool
  _forcedPushFlag : Bool
  _callback : Bool
  _enabledFeatures : Option (List String)
  stored : Option ProjectInfo
  queries : Nat
  trace : List Event
  thrown : Option JsError
  deriving DecidableEq

/-- The state of a freshly loaded module, with `stored` on disk. -/
def World.init (stored : Option ProjectInfo) : World :=
  { _projectInfo := none, _awsConfig := none, _backendProjectDetails := none,
    _waitFlag := none, _syncToDevFlag := false, _forcedPushFlag := false,
    _callback := false, _enabledFeatures := none,
    stored := stored, queries := 0, trace := [], thrown := none }

/-- A JavaScript callback `(err, backendDetails) => ..`. -/
abbrev Callback := Option PollError → BackendDetails → World → World

/-- Record a call. -/
def emit (e : Event) (w : World) : World := { w with trace := w.trace ++ [e] }

/-- Throw an exception that nothing catches: the process stops. -/
def raise (e : JsError) (w : World) : World := { w with thrown := some e }

/-- A callback that only records that it was called, and with what. -/
def report : Callback := fun err backendDetails w => emit (Event.report err backendDetails) w

/-- The call `mobile.describeProject(param, ..)`: the query is recorded and
counted, and the answer of the service to it is returned. -/
def describeProject (mobile : Mobile) (param : Param) (w : World) : DescribeResult × World :=
  (mobile.describeProject w.queries,
    { emit (Event.describeProject param) w with queries := w.queries + 1 })

/-- Line 35. -/
def maxCloudApiWaitLoop : Nat := 100

/-! ## isNewUpdateNeeded -/

/-- Lines 139-159.  `BackendLastUpdateSuccessful` is the field of
`_projectInfo`, `existsSync` is what `fs.existsSync(backendBuildDirPath)`
answers, `lastBackendUpdateTime` is `moment(_projectInfo.BackendLastUpdateTime,
format)` and `lastBackendBuildDirModificationTime` is
`moment(dfops.getDirContentMTime(..))`. -/
def isNewUpdateNeeded (BackendLastUpdateSuccessful existsSync : Bool)
    (lastBackendUpdateTime lastBackendBuildDirModificationTime : Moment) : Bool :=
  let result := false
  if BackendLastUpdateSuccessful then
    if existsSync then
      (!lastBackendUpdateTime.isValid ||
        !lastBackendBuildDirModificationTime.isValid ||
        lastBackendUpdateTime.isBefore lastBackendBuildDirModificationTime)
    else
      result
  else
    true

/-! ## The status poller -/

/-- Lines 259-304.  Line 262 reads a variable `err` that no enclosing scope
declares, so the branch of line 261 throws before it reaches line 263.
The test of line 281 has no `else` and no `return`: the chain of lines
285-296 runs after it, unless the callback of line 283 has thrown.
`setTimeout` is recorded and the pass it schedules follows. -/
def cloudApiWaitLoop (ops : OpsCloudApi) (mobile : Mobile) (param : Param)
    (backendDetails : BackendDetails) (loopCount : Nat) (callback : Callback)
    (w : World) : World :=
  if loopCount > maxCloudApiWaitLoop then
    raise JsError.ReferenceError w
  else
    match describeProject mobile param w with
    | (DescribeResult.pending, w) => w
    | (DescribeResult.err, w) =>
      callback (some ⟨0⟩) backendDetails (emit Event.handleMobileException w)
    | (DescribeResult.data details, w) =>
      let backendDetails := details
      match ops.getFormationStateSummary backendDetails with
      | none => callback (some ⟨-2⟩) backendDetails w
      | some cloudFormationState =>
        if cloudFormationState = "" then
          callback (some ⟨-2⟩) backendDetails w
        else
          let stateGroup := ops.getStateGroup cloudFormationState
          let w := if stateGroup < 0 then callback (some ⟨-1⟩) backendDetails w else w
          if w.thrown.isSome then w
          else if stateGroup = 0 then
            cloudApiWaitLoop ops mobile param backendDetails (loopCount + 1) callback
              (emit (Event.setTimeout 5000) w)
          else if stateGroup = 1 then
            callback none backendDetails w
          else
            callback (some ⟨2⟩) backendDetails w
termination_by maxCloudApiWaitLoop + 1 - loopCount
decreasing_by
  simp only [maxCloudApiWaitLoop] at *
  omega

/-- Lines 235-256. -/
def waitForCloudAPIComplete (ops : OpsCloudApi) (mobile : Mobile)
    (backendDetails : BackendDetails) (callback : Callback) (w : World) : World :=
  if (match w._enabledFeatures with
      | some fs => decide (fs.length > 0) && fs.contains ops.featureName
      | none => false) then
    if (match w._waitFlag with
        | some f => decide (f ≠ 0) && decide (f < 0)
        | none => false) then
      callback none backendDetails w
    else
      match w._projectInfo with
      | none => raise JsError.TypeError w
      | some projectInfo =>
        let param : Param := { projectId := projectInfo.BackendProjectID, syncFromResources := true }
        cloudApiWaitLoop ops mobile param backendDetails 1 callback w
  else
    callback none backendDetails w

/-! ## The orchestrator -/

/-- The call `projectInfoManager.setProjectInfo(_projectInfo)`. -/
def setProjectInfo (projectInfo : ProjectInfo) (w : World) : World :=
  emit (Event.setProjectInfo projectInfo) { w with stored := some projectInfo }

/-- The arrow function of lines 208-227, the callback that
`updateBackendProject` hands to `waitForCloudAPIComplete`. -/
def onCloudAPIComplete (env : Env) : Callback := fun err backendDetails w =>
  match w._projectInfo with
  | none => raise JsError.TypeError w
  | some projectInfo =>
    let w :=
      if err.isSome then
        let projectInfo := { projectInfo with
          BackendLastUpdateTime := env.now, BackendLastUpdateSuccessful := false }
        setProjectInfo projectInfo { w with _projectInfo := some projectInfo }
      else
        let projectInfo := { projectInfo with
          BackendLastUpdateTime := env.now, BackendLastUpdateSuccessful := true }
        setProjectInfo projectInfo { w with _projectInfo := some projectInfo }
    let w := emit (Event.syncCurrentBackendInfo backendDetails) w
    if w._callback then emit Event.callback w else w

/-- Lines 182-233. -/
def updateBackendProject (env : Env) (w : World) : World :=
  match w._projectInfo with
  | none => raise JsError.TypeError w
  | some projectInfo =>
    let w := emit Event.readFileSync w
    let mobile := env.mobile
    let w := emit (Event.updateProject projectInfo.BackendProjectID) w
    let w := { w with _projectInfo := w.stored }
    match mobile.updateProject with
    | UpdateResult.err =>
      match w._projectInfo with
      | none => raise JsError.TypeError w
      | some projectInfo =>
        let w := emit Event.handleMobileException w
        let projectInfo := { projectInfo with
          BackendLastUpdateTime := env.now, BackendLastUpdateSuccessful := false }
        setProjectInfo projectInfo { w with _projectInfo := some projectInfo }
    | UpdateResult.data (some details) =>
      waitForCloudAPIComplete env.ops mobile details (onCloudAPIComplete env) w
    | UpdateResult.data none => w

/-- The callbacks of the hooks (lines 169-175), one per report: `count` is
the local variable of `preUpdateAction`. -/
def hookCallbacks (env : Env) : List String → Nat → World → World
  | [], _, w => w
  | _ :: reports, count, w =>
    let count := count + 1
    match w._enabledFeatures with
    | none => raise JsError.TypeError w
    | some enabledFeatures =>
      let w := if count = enabledFeatures.length then updateBackendProject env w else w
      if w.thrown.isSome then w else hookCallbacks env reports count w

/-- The `forEach` of lines 167-176: every hook is started in turn, and the
callbacks it calls while it is being started run before the next hook is
started.  The result is `count` after the loop and the world after it; an
exception thrown under a callback ends the loop. -/
def forEachHook (env : Env) : List String → Nat → World → Nat × World
  | [], count, w => (count, w)
  | featureName :: features, count, w =>
    let w := emit (Event.preBackendUpdate featureName) w
    let calls := List.replicate (env.hookSyncCalls featureName) featureName
    let w := hookCallbacks env calls count w
    if w.thrown.isSome then (count + calls.length, w)
    else forEachHook env features (count + calls.length) w

/-- Lines 161-180: the `forEach` over the enabled features, then the
callbacks of the hooks that report later. -/
def preUpdateAction (env : Env) (w : World) : World :=
  let count := 0
  let w := { w with _enabledFeatures := env.enabledFeatures }
  if (match w._enabledFeatures with
      | some fs => decide (fs.length > 0)
      | none => false) then
    match w._projectInfo, w._enabledFeatures with
    | some _, some enabledFeatures =>
      let (count, w) := forEachHook env enabledFeatures count w
      if w.thrown.isSome then w else hookCallbacks env env.hookReports count w
    | _, _ => raise JsError.TypeError w
  else
    updateBackendProject env w

/-- Lines 124-137. -/
def updateBackend (env : Env) (w : World) : World :=
  let w := emit Event.build w
  match w._projectInfo with
  | none => raise JsError.TypeError w
  | some projectInfo =>
    let needed := isNewUpdateNeeded projectInfo.BackendLastUpdateSuccessful env.existsSync
      (env.parseTime projectInfo.BackendLastUpdateTime) env.dirContentMTime
    let w := emit (Event.isNewUpdateNeeded needed) w
    if needed || w._forcedPushFlag then
      preUpdateAction env w
    else
      if w._callback then emit Event.callback w else w

/-- Lines 77-122. -/
def checkLatestInCloud (env : Env) (callback : World → World) (w : World) : World :=
  match w._projectInfo with
  | none => raise JsError.TypeError w
  | some projectInfo =>
    let w := emit (Event.getLatestBackendDetails projectInfo.BackendProjectID) w
    let backendDetails := env.latestBackendDetails
    let w := { w with _backendProjectDetails := some backendDetails }
    if env.checkBackendProjectLastUpdateTime projectInfo backendDetails then
      callback (emit (Event.setBackendDetails projectInfo.ProjectPath backendDetails true) w)
    else
      let w := emit (Event.prompt "forcePush") w
      if env.forcePush then
        let w := { w with _forcedPushFlag := true }
        callback (emit (Event.setBackendDetails projectInfo.ProjectPath backendDetails true) w)
      else
        let w := emit (Event.prompt "openConsole") w
        if env.openConsole then
          emit (Event.opn backendDetails.consoleUrl) w
        else
          w

/-- Lines 46-75.  `callback` tells whether a completion callback is given;
calling it is the event `Event.callback`. -/
def run (env : Env) (callback : Bool) (waitFlag : Option Int) (syncToDevFlag : Bool)
    (w : World) : World :=
  let w := { w with _callback := callback, _waitFlag := waitFlag,
                    _syncToDevFlag := syncToDevFlag, _projectInfo := w.stored }
  match w._projectInfo with
  | none => w
  | some projectInfo =>
    let w := emit Event.checkAWSConfig w
    let w := { w with _awsConfig := some env.awsConfig }
    if projectInfo.BackendProjectID.length > 0 then
      checkLatestInCloud env (fun w => updateBackend env w) w
    else
      let w := emit (Event.prompt "createBackend") w
      if env.createBackend then
        updateBackend env (emit Event.createBackendProject w)
      else
        w

/-! ## Observations -/

/-- The number of status queries in a list of calls. -/
def countQueries (t : List Event) : Nat :=
  t.countP (fun e => match e with | Event.describeProject _ => true | _ => false)

/-- The number of calls of the completion callback in a list of calls. -/
def countCallback (t : List Event) : Nat := t.count Event.callback

/-- The calls of the recording callback in a list of calls. -/
def reports (t : List Event) : List Event :=
  t.filter (fun e => match e with | Event.report _ _ => true | _ => false)

/-- The waits scheduled in a list of calls. -/
def timeouts (t : List Event) : List Event :=
  t.filter (fun e => match e with | Event.setTimeout _ => true | _ => false)

/-- The group in which the answer to a status query is classified: `none`
when the query fails, is never answered, or carries no formation state. -/
def stateGroupOf (ops : OpsCloudApi) (r : DescribeResult) : Option Int :=
  match r with
  | DescribeResult.data details =>
    match ops.getFormationStateSummary details with
    | some s => if s = "" then none else some (ops.getStateGroup s)
    | none => none
  | _ => none

/-- The details carried by the answer to a status query. -/
def detailsOf (r : DescribeResult) : Option BackendDetails :=
  match r with
  | DescribeResult.data details => some details
  | _ => none

/-- The calls of a poll that sees `n` answers in progress: a query and a
wait of 5000 ms, `n` times. -/
def inProgressCalls (param : Param) : Nat → List Event
  | 0 => []
  | n + 1 => Event.describeProject param :: Event.setTimeout 5000 :: inProgressCalls param n

/-- The details the poller holds after `n` answers in progress, the first
of them being the answer to the query number `q`. -/
def heldDetails (mobile : Mobile) (backendDetails : BackendDetails) (q : Nat) :
    Nat → BackendDetails
  | 0 => backendDetails
  | n + 1 =>
    heldDetails mobile ((detailsOf (mobile.describeProject q)).getD backendDetails) (q + 1) n

/-- The world after `n` more queries, `calls` being the calls made meanwhile. -/
def advance (n : Nat) (calls : List Event) (w : World) : World :=
  { w with queries := w.queries + n, trace := w.trace ++ calls }

/-- An answer after which the poller stops and reports: the query is
answered and the answer is not in progress. -/
def endsPoll (ops : OpsCloudApi) (r : DescribeResult) : Bool :=
  decide (r ≠ DescribeResult.pending) && decide (stateGroupOf ops r ≠ some 0)

/-- The test of line 236 together with the negation of the test of line
237: whether `waitForCloudAPIComplete` polls, with the enabled features of
`env` and the wait flag `waitFlag`. -/
def pollsStatus (env : Env) (waitFlag : Option Int) : Bool :=
  (match env.enabledFeatures with
    | some fs => decide (fs.length > 0) && fs.contains env.ops.featureName
    | none => false) &&
  !(match waitFlag with
    | some f => decide (f ≠ 0) && decide (f < 0)
    | none => false)

/-- The number of times the hooks of the features `fs` call their callback
while they are being started. -/
def syncCalls (env : Env) (fs : List String) : Nat :=
  (fs.map env.hookSyncCalls).sum

/-- Whether the join of lines 170-174 is reached: no feature is enabled, or
the hooks report (while they are started or later) at least as many times
as there are enabled features. -/
def hooksJoin (env : Env) : Bool :=
  match env.enabledFeatures with
  | some fs => decide (fs.length ≤ syncCalls env fs + env.hookReports.length)
  | none => true

/-! ## Concrete collaborators -/

/-- A classification table in the shape the comment of lines 276-280
describes. -/
def sampleOps : OpsCloudApi :=
  { featureName := "cloud-api",
    getFormationStateSummary := fun d => d.formationState,
    getStateGroup := fun s =>
      if s = "IN_PROGRESS" then 0 else if s = "COMPLETE" then 1
      else if s = "FAILED" then 2 else -1 }

/-- Backend details whose formation state is `s`. -/
def sampleDetails (s : String) : BackendDetails :=
  { name := "backend", consoleUrl := "https://console", formationState := some s }

/-- A project record with a backend project id. -/
def sampleProject : ProjectInfo :=
  { ProjectPath := "/app", BackendProjectID := "id-1", BackendProjectName := "backend",
    BackendLastUpdateTime := "2018-01-01-00-00-00", BackendLastUpdateSuccessful := true }

/-- The argument of the status queries of `sampleProject`. -/
def sampleParam : Param := { projectId := "id-1", syncFromResources := true }

/-- A service that answers `n` times in progress, then complete. -/
def mobileAfter (n : Nat) : Mobile :=
  { updateProject := UpdateResult.data (some (sampleDetails "IN_PROGRESS")),
    describeProject := fun k =>
      if k < n then DescribeResult.data (sampleDetails "IN_PROGRESS")
      else DescribeResult.data (sampleDetails "COMPLETE") }

/-- A service whose every answer is the formation state `s`. -/
def mobileAlways (s : String) : Mobile :=
  { updateProject := UpdateResult.data (some (sampleDetails "IN_PROGRESS")),
    describeProject := fun _ => DescribeResult.data (sampleDetails s) }

/-- Collaborators for `sampleProject`: `conflict` tells whether the remote
project is ahead of the local record, `forcePush` is the answer to the
prompt of line 92; the build directory exists and is newer than the last
update, the cloud-api feature is the one enabled feature and its hook
reports once, after the `forEach`. -/
def sampleEnv (conflict forcePush : Bool) (mobile : Mobile) : Env :=
  { awsConfig := "default",
    latestBackendDetails := sampleDetails "COMPLETE",
    checkBackendProjectLastUpdateTime := fun _ _ => !conflict,
    createBackend := false,
    forcePush := forcePush,
    openConsole := false,
    existsSync := true,
    parseTime := fun _ => some 1,
    dirContentMTime := some 2,
    now := "2018-02-02-00-00-00",
    enabledFeatures := some ["cloud-api"],
    hookSyncCalls := fun _ => 0,
    hookReports := ["cloud-api"],
    mobile := mobile,
    ops := sampleOps }

/-- A service that rejects the submission and answers no status query. -/
def mobileFailing : Mobile :=
  { updateProject := UpdateResult.err,
    describeProject := fun _ => DescribeResult.pending }

/-- The world of a run of `sampleProject` that has loaded the project
record and was given a completion callback. -/
def sampleWorld : World :=
  { World.init (some sampleProject) with
    _projectInfo := some sampleProject, _callback := true }

/-- Collaborators with the two enabled features `"a"` and `"b"`, whose
hooks report as `reports` lists, after the `forEach`. -/
def twoHookEnv (reports : List String) : Env :=
  { sampleEnv false false mobileFailing with
    enabledFeatures := some ["a", "b"], hookReports := reports }

/-- Collaborators with the two enabled features `"a"` and `"b"`: the hook
of `"a"` calls its callback twice while it is being started, the hook of
`"b"` never reports. -/
def eagerHookEnv : Env :=
  { twoHookEnv [] with hookSyncCalls := fun f => if f = "a" then 2 else 0 }

/-- The calls made from the answer of `updateProject` on: status queries,
waits, the exception handler, the write of the project record, the sync of
the backend details and the completion callback. -/
def isPollPhase : Event → Bool
  | Event.describeProject _ => true
  | Event.setTimeout _ => true
  | Event.handleMobileException => true
  | Event.setProjectInfo _ => true
  | Event.syncCurrentBackendInfo _ => true
  | Event.callback => true
  | _ => false

/-- The world `w2` is the world `w` after calls that are all of the poll
phase, with the same enabled features. -/
def Extends (w w2 : World) : Prop :=
  ∃ calls : List Event, w2.trace = w.trace ++ calls ∧
    (∀ e ∈ calls, isPollPhase e = true) ∧ w2._enabledFeatures = w._enabledFeatures

/-! ## Theorems: the staleness check -/

/-- C2: with `BackendLastUpdateSuccessful` false, `isNewUpdateNeeded`
returns true for every existence flag of the build directory, every last
update time and every modification time, valid or not. -/
theorem isNewUpdateNeeded_of_not_successful (existsSync : Bool)
    (lastBackendUpdateTime lastBackendBuildDirModificationTime : Moment) :
    isNewUpdateNeeded false existsSync lastBackendUpdateTime
      lastBackendBuildDirModificationTime = true := by
  simp [isNewUpdateNeeded]

/-- C3: with `BackendLastUpdateSuccessful` true and an existing build
directory, `isNewUpdateNeeded` returns true exactly when the last update
time is invalid, or the modification time is invalid, or the last update
time is strictly before the modification time; on two valid times `t1`,
`t2` it returns the truth value of `t1 < t2` (true when `t1 < t2`, false
when they are swapped, false when they are equal). -/
theorem isNewUpdateNeeded_existing_iff :
    (∀ t m : Moment, isNewUpdateNeeded true true t m = true ↔
      (t = none ∨ m = none ∨ ∃ x y : Int, t = some x ∧ m = some y ∧ x < y)) ∧
    (∀ t1 t2 : Int, isNewUpdateNeeded true true (some t1) (some t2) = decide (t1 < t2)) ∧
    (∀ t : Int, isNewUpdateNeeded true true (some t) (some t) = false) := by
  refine ⟨?_, ?_, ?_⟩
  · intro t m
    cases t <;> cases m <;> simp [isNewUpdateNeeded, Moment.isValid, Moment.isBefore]
  · intro t1 t2
    simp [isNewUpdateNeeded, Moment.isValid, Moment.isBefore]
  · intro t
    simp [isNewUpdateNeeded, Moment.isValid, Moment.isBefore]

/-- C4, as stated, fails: after a successful update, with an existing build
directory and an invalid last update time, `isNewUpdateNeeded` returns
true although the build directory is not strictly newer than the last
update. -/
theorem isNewUpdateNeeded_only_if_newer_fails :
    ¬ (∀ (successful existsSync : Bool) (t m : Moment),
        isNewUpdateNeeded successful existsSync t m = true →
        (successful = false ∨ ∃ x y : Int, t = some x ∧ m = some y ∧ x < y)) := by
  intro h
  have h1 := h true true none (some 0) (by decide)
  simp at h1

/-- C4, amended: `isNewUpdateNeeded` returns true only if there was no
successful update, or the build directory exists and the last update time
is invalid, or the modification time is invalid, or the modification time
is strictly after the last update time. -/
theorem isNewUpdateNeeded_only_if (successful existsSync : Bool) (t m : Moment)
    (h : isNewUpdateNeeded successful existsSync t m = true) :
    successful = false ∨
      (existsSync = true ∧
        (t = none ∨ m = none ∨ ∃ x y : Int, t = some x ∧ m = some y ∧ x < y)) := by
  cases successful <;> cases existsSync <;> cases t <;> cases m <;>
    simp_all [isNewUpdateNeeded, Moment.isValid, Moment.isBefore]

/-- Witness of `isNewUpdateNeeded_only_if`: an invalid last update time. -/
theorem isNewUpdateNeeded_only_if_witness :
    isNewUpdateNeeded true true none (some 0) = true ∧
    (true = false ∨
      (true = true ∧
        ((none : Moment) = none ∨ (some 0 : Moment) = none ∨
          ∃ x y : Int, (none : Moment) = some x ∧ (some 0 : Moment) = some y ∧ x < y))) :=
  ⟨by decide, isNewUpdateNeeded_only_if true true none (some 0) (by decide)⟩

/-! ## Lemmas: one pass of the poller -/

theorem stateGroupOf_data {ops : OpsCloudApi} {d : BackendDetails} {g : Int}
    (h : stateGroupOf ops (DescribeResult.data d) = some g) :
    ∃ s, ops.getFormationStateSummary d = some s ∧ s ≠ "" ∧ ops.getStateGroup s = g := by
  simp only [stateGroupOf] at h
  cases hs : ops.getFormationStateSummary d with
  | none => simp [hs] at h
  | some s =>
    by_cases he : s = ""
    · simp [hs, he] at h
    · simp [hs, he] at h
      exact ⟨s, rfl, he, h⟩

theorem stateGroupOf_some {ops : OpsCloudApi} {r : DescribeResult} {g : Int}
    (h : stateGroupOf ops r = some g) : ∃ d, r = DescribeResult.data d := by
  cases r with
  | data d => exact ⟨d, rfl⟩
  | err => simp [stateGroupOf] at h
  | pending => simp [stateGroupOf] at h

theorem cloudApiWaitLoop_over (ops : OpsCloudApi) (mobile : Mobile) (param : Param)
    (bd : BackendDetails) (lc : Nat) (k : Callback) (w : World)
    (hlc : maxCloudApiWaitLoop < lc) :
    cloudApiWaitLoop ops mobile param bd lc k w = raise JsError.ReferenceError w := by
  rw [cloudApiWaitLoop]
  simp [hlc]

theorem cloudApiWaitLoop_inProgress (ops : OpsCloudApi) (mobile : Mobile) (param : Param)
    (bd d : BackendDetails) (lc : Nat) (k : Callback) (w : World)
    (hlc : lc ≤ maxCloudApiWaitLoop) (hw : w.thrown = none)
    (hr : mobile.describeProject w.queries = DescribeResult.data d)
    (hg : stateGroupOf ops (DescribeResult.data d) = some 0) :
    cloudApiWaitLoop ops mobile param bd lc k w =
      cloudApiWaitLoop ops mobile param d (lc + 1) k
        (advance 1 [Event.describeProject param, Event.setTimeout 5000] w) := by
  obtain ⟨s, hs, he, hzero⟩ := stateGroupOf_data hg
  rw [cloudApiWaitLoop]
  have hnot : ¬ lc > maxCloudApiWaitLoop := by omega
  simp [hnot, describeProject, hr, hs, he, hzero, emit, hw, advance]

theorem cloudApiWaitLoop_complete (ops : OpsCloudApi) (mobile : Mobile) (param : Param)
    (bd d : BackendDetails) (lc : Nat) (k : Callback) (w : World)
    (hlc : lc ≤ maxCloudApiWaitLoop) (hw : w.thrown = none)
    (hr : mobile.describeProject w.queries = DescribeResult.data d)
    (hg : stateGroupOf ops (DescribeResult.data d) = some 1) :
    cloudApiWaitLoop ops mobile param bd lc k w =
      k none d (advance 1 [Event.describeProject param] w) := by
  obtain ⟨s, hs, he, hone⟩ := stateGroupOf_data hg
  rw [cloudApiWaitLoop]
  have hnot : ¬ lc > maxCloudApiWaitLoop := by omega
  simp [hnot, describeProject, hr, hs, he, hone, emit, hw, advance]

theorem cloudApiWaitLoop_unrecognized (ops : OpsCloudApi) (mobile : Mobile) (param : Param)
    (bd d : BackendDetails) (lc : Nat) (k : Callback) (w : World) (g : Int)
    (hlc : lc ≤ maxCloudApiWaitLoop)
    (hr : mobile.describeProject w.queries = DescribeResult.data d)
    (hg : stateGroupOf ops (DescribeResult.data d) = some g) (hneg : g < 0) :
    cloudApiWaitLoop ops mobile param bd lc k w =
      (let w1 := k (some ⟨-1⟩) d (advance 1 [Event.describeProject param] w)
       if w1.thrown.isSome then w1 else k (some ⟨2⟩) d w1) := by
  obtain ⟨s, hs, he, hgs⟩ := stateGroupOf_data hg
  rw [cloudApiWaitLoop]
  have hnot : ¬ lc > maxCloudApiWaitLoop := by omega
  have h0 : ¬ g = 0 := by omega
  have h1 : ¬ g = 1 := by omega
  simp [hnot, describeProject, hr, hs, he, hgs, emit, advance, hneg, h0, h1]

theorem cloudApiWaitLoop_skip (ops : OpsCloudApi) (mobile : Mobile) (param : Param)
    (k : Callback) (n : Nat) :
    ∀ (lc : Nat) (bd : BackendDetails) (w : World),
      lc + n ≤ maxCloudApiWaitLoop + 1 → w.thrown = none →
      (∀ i, i < n → stateGroupOf ops (mobile.describeProject (w.queries + i)) = some 0) →
      cloudApiWaitLoop ops mobile param bd lc k w =
        cloudApiWaitLoop ops mobile param (heldDetails mobile bd w.queries n) (lc + n) k
          (advance n (inProgressCalls param n) w) := by
  induction n with
  | zero =>
    intro lc bd w _ _ _
    simp [heldDetails, advance, inProgressCalls]
  | succ n ih =>
    intro lc bd w hlc hw hprog
    have h0 := hprog 0 (by omega)
    obtain ⟨d, hd⟩ := stateGroupOf_some h0
    simp only [Nat.add_zero] at hd h0
    rw [hd] at h0
    rw [cloudApiWaitLoop_inProgress ops mobile param bd d lc k w (by omega) hw hd h0]
    rw [ih (lc + 1) d _ (by omega) (by simp [advance, hw])
      (by
        intro i hi
        have := hprog (i + 1) (by omega)
        simpa [advance, Nat.add_assoc, Nat.add_comm 1 i] using this)]
    simp [heldDetails, hd, detailsOf, advance, inProgressCalls, Nat.add_assoc, Nat.add_comm 1 n]

theorem countQueries_inProgressCalls (param : Param) (n : Nat) :
    countQueries (inProgressCalls param n) = n := by
  induction n with
  | zero => rfl
  | succ n ih =>
    simp only [countQueries] at ih
    simp [inProgressCalls, countQueries, List.countP_cons, ih]

theorem timeouts_inProgressCalls (param : Param) (n : Nat) :
    timeouts (inProgressCalls param n) = List.replicate n (Event.setTimeout 5000) := by
  induction n with
  | zero => rfl
  | succ n ih =>
    simp only [timeouts] at ih
    simp [inProgressCalls, timeouts, List.filter_cons, ih, List.replicate_succ]

theorem reports_inProgressCalls (param : Param) (n : Nat) :
    reports (inProgressCalls param n) = [] := by
  induction n with
  | zero => rfl
  | succ n ih =>
    simp only [reports] at ih
    simp [inProgressCalls, reports, List.filter_cons, ih]

theorem countQueries_append (a b : List Event) :
    countQueries (a ++ b) = countQueries a + countQueries b := by
  simp [countQueries, List.countP_append]

theorem countQueries_cloudApiWaitLoop_le (ops : OpsCloudApi) (mobile : Mobile) (param : Param)
    (k : Callback)
    (hk : ∀ e d w, countQueries (k e d w).trace = countQueries w.trace) (m : Nat) :
    ∀ (lc : Nat) (bd : BackendDetails) (w : World), maxCloudApiWaitLoop + 1 - lc = m →
      countQueries (cloudApiWaitLoop ops mobile param bd lc k w).trace
        ≤ countQueries w.trace + m := by
  induction m with
  | zero =>
    intro lc bd w h
    rw [cloudApiWaitLoop_over ops mobile param bd lc k w (by omega)]
    simp [raise]
  | succ m ih =>
    intro lc bd w h
    have hlc : ¬ lc > maxCloudApiWaitLoop := by omega
    have hq : countQueries (w.trace ++ [Event.describeProject param]) = countQueries w.trace + 1 := by
      simp [countQueries]
    rw [cloudApiWaitLoop]
    simp only [hlc, if_false, describeProject, emit]
    cases hr : mobile.describeProject w.queries with
    | pending => simp only [hq]; omega
    | err =>
      simp only [hk, countQueries_append, hq]
      simp only [countQueries, List.countP_cons, List.countP_nil]
      simp
    | data d =>
      simp only
      cases hs : ops.getFormationStateSummary d with
      | none => simp only [hk, hq]; omega
      | some s =>
        simp only
        by_cases he : s = ""
        · simp only [he, if_true, hk, hq]; omega
        · simp only [he, if_false]
          by_cases hneg : ops.getStateGroup s < 0
          · have h0 : ¬ ops.getStateGroup s = 0 := by omega
            have h1 : ¬ ops.getStateGroup s = 1 := by omega
            simp only [hneg, if_true, h0, h1, if_false]
            split
            · simp only [hk, hq]; omega
            · simp only [hk, hq]; omega
          · simp only [hneg, if_false]
            split
            · simp only [hq]; omega
            · by_cases h0 : ops.getStateGroup s = 0
              · simp only [h0, if_true]
                refine le_trans (ih (lc + 1) d _ (by omega)) ?_
                simp only [countQueries_append, hq]
                simp only [countQueries, List.countP_cons, List.countP_nil]
                simp
                omega
              · simp only [h0, if_false]
                split <;> simp only [hk, hq] <;> omega

/-! ## Theorems: the poller -/

/-- C5: for every `n < maxCloudApiWaitLoop`, when the next `n` answers are
in progress (group 0) and the one after is complete (group 1) with details
`d`, the poller started at `loopCount` 1 makes, in this order, `n` times a
query followed by a wait of 5000 ms, then one more query, then calls its
callback once, with a null error and `d`: `n + 1` queries, `n` waits, one
report. -/
theorem cloudApiWaitLoop_success_after (ops : OpsCloudApi) (mobile : Mobile) (param : Param)
    (bd d : BackendDetails) (w : World) (n : Nat)
    (hn : n < maxCloudApiWaitLoop) (hw : w.thrown = none)
    (hprog : ∀ i, i < n → stateGroupOf ops (mobile.describeProject (w.queries + i)) = some 0)
    (hr : mobile.describeProject (w.queries + n) = DescribeResult.data d)
    (hg : stateGroupOf ops (DescribeResult.data d) = some 1) :
    cloudApiWaitLoop ops mobile param bd 1 report w =
        advance (n + 1)
          (inProgressCalls param n ++ [Event.describeProject param, Event.report none d]) w ∧
      countQueries
          (inProgressCalls param n ++ [Event.describeProject param, Event.report none d])
        = n + 1 ∧
      timeouts (inProgressCalls param n ++ [Event.describeProject param, Event.report none d])
        = List.replicate n (Event.setTimeout 5000) ∧
      reports (inProgressCalls param n ++ [Event.describeProject param, Event.report none d])
        = [Event.report none d] := by
  refine ⟨?_, ?_, ?_, ?_⟩
  · rw [cloudApiWaitLoop_skip ops mobile param report n 1 bd w
      (by simp only [maxCloudApiWaitLoop] at *; omega) hw hprog]
    rw [cloudApiWaitLoop_complete ops mobile param _ d (1 + n) report _
      (by simp only [maxCloudApiWaitLoop] at *; omega) (by simp [advance, hw])
      (by simpa [advance] using hr) hg]
    simp [report, emit, advance, Nat.add_assoc]
  · rw [countQueries_append, countQueries_inProgressCalls]
    simp [countQueries]
  · have h := timeouts_inProgressCalls param n
    simp only [timeouts] at h
    simp [timeouts, List.filter_append, h, List.filter_cons]
  · have h := reports_inProgressCalls param n
    simp only [reports] at h
    simp [reports, List.filter_append, h, List.filter_cons]

/-- Witness of `cloudApiWaitLoop_success_after`: three answers in progress,
then complete: four queries. -/
theorem cloudApiWaitLoop_success_after_witness :
    cloudApiWaitLoop sampleOps (mobileAfter 3) sampleParam (sampleDetails "x") 1 report
        (World.init (some sampleProject)) =
      advance 4
        (inProgressCalls sampleParam 3 ++
          [Event.describeProject sampleParam, Event.report none (sampleDetails "COMPLETE")])
        (World.init (some sampleProject)) ∧
      countQueries
          (inProgressCalls sampleParam 3 ++
            [Event.describeProject sampleParam, Event.report none (sampleDetails "COMPLETE")])
        = 4 :=
  have h := cloudApiWaitLoop_success_after sampleOps (mobileAfter 3) sampleParam
    (sampleDetails "x") (sampleDetails "COMPLETE") (World.init (some sampleProject)) 3
    (by decide) rfl
    (by
      intro i hi
      simp [World.init, mobileAfter, hi, stateGroupOf, sampleOps, sampleDetails])
    (by simp [World.init, mobileAfter])
    (by simp [stateGroupOf, sampleOps, sampleDetails])
  ⟨h.1, h.2.1⟩

/-- C6, what the code does: when the next `maxCloudApiWaitLoop` answers are
all in progress, the poller started at `loopCount` 1 makes
`maxCloudApiWaitLoop` queries, each followed by a wait of 5000 ms, and
then, entered with `loopCount` 101, throws the ReferenceError of line 262:
whatever its callback is, it is never called, so no `{code: 0}` is
reported. -/
theorem cloudApiWaitLoop_exhausted (ops : OpsCloudApi) (mobile : Mobile) (param : Param)
    (bd : BackendDetails) (k : Callback) (w : World) (hw : w.thrown = none)
    (hprog : ∀ i, i < maxCloudApiWaitLoop →
      stateGroupOf ops (mobile.describeProject (w.queries + i)) = some 0) :
    cloudApiWaitLoop ops mobile param bd 1 k w =
        raise JsError.ReferenceError
          (advance maxCloudApiWaitLoop (inProgressCalls param maxCloudApiWaitLoop) w) ∧
      countQueries (inProgressCalls param maxCloudApiWaitLoop) = maxCloudApiWaitLoop ∧
      reports (inProgressCalls param maxCloudApiWaitLoop) = [] := by
  refine ⟨?_, countQueries_inProgressCalls _ _, reports_inProgressCalls _ _⟩
  rw [cloudApiWaitLoop_skip ops mobile param k maxCloudApiWaitLoop 1 bd w (by omega) hw hprog]
  rw [cloudApiWaitLoop_over ops mobile param _ _ k _ (by omega)]

/-- Witness of `cloudApiWaitLoop_exhausted`: a service that always answers
in progress; the recording callback is never called. -/
theorem cloudApiWaitLoop_exhausted_witness :
    cloudApiWaitLoop sampleOps (mobileAlways "IN_PROGRESS") sampleParam (sampleDetails "x") 1
        report (World.init (some sampleProject)) =
      raise JsError.ReferenceError
        (advance 100 (inProgressCalls sampleParam 100) (World.init (some sampleProject))) ∧
      reports (inProgressCalls sampleParam 100) = [] :=
  have h := cloudApiWaitLoop_exhausted sampleOps (mobileAlways "IN_PROGRESS") sampleParam
    (sampleDetails "x") report (World.init (some sampleProject)) rfl
    (by
      intro i _
      simp [mobileAlways, stateGroupOf, sampleOps, sampleDetails])
  ⟨h.1, h.2.2⟩

/-- C7, what the code does: when the answer to the query of an attempt is
classified in a negative group (unrecognized), the poller makes no further
query and schedules no wait, but calls its callback twice: first with
`{code: -1}`, then, through the last `else` of the chain of lines 285-296,
with `{code: 2}`. -/
theorem cloudApiWaitLoop_unrecognized_twice (ops : OpsCloudApi) (mobile : Mobile)
    (param : Param) (bd d : BackendDetails) (loopCount : Nat) (w : World) (g : Int)
    (hlc : loopCount ≤ maxCloudApiWaitLoop) (hw : w.thrown = none)
    (hr : mobile.describeProject w.queries = DescribeResult.data d)
    (hg : stateGroupOf ops (DescribeResult.data d) = some g) (hneg : g < 0) :
    cloudApiWaitLoop ops mobile param bd loopCount report w =
      advance 1
        [Event.describeProject param, Event.report (some ⟨-1⟩) d, Event.report (some ⟨2⟩) d] w := by
  rw [cloudApiWaitLoop_unrecognized ops mobile param bd d loopCount report w g hlc hr hg hneg]
  simp [report, emit, advance, hw]

/-- Witness of `cloudApiWaitLoop_unrecognized_twice`: the status `"WEIRD"`
at attempt 7. -/
theorem cloudApiWaitLoop_unrecognized_twice_witness :
    cloudApiWaitLoop sampleOps (mobileAlways "WEIRD") sampleParam (sampleDetails "x") 7 report
        (World.init (some sampleProject)) =
      advance 1
        [Event.describeProject sampleParam,
          Event.report (some ⟨-1⟩) (sampleDetails "WEIRD"),
          Event.report (some ⟨2⟩) (sampleDetails "WEIRD")]
        (World.init (some sampleProject)) :=
  cloudApiWaitLoop_unrecognized_twice sampleOps (mobileAlways "WEIRD") sampleParam
    (sampleDetails "x") (sampleDetails "WEIRD") 7 (World.init (some sampleProject)) (-1)
    (by decide) rfl rfl (by simp [stateGroupOf, sampleOps, sampleDetails]) (by decide)

/-- C8: with a negative `_waitFlag`, whatever the submitted details, the
enabled features and the service are, `waitForCloudAPIComplete` is one
call of its callback with a null error and the submitted details, in the
unchanged world: no status query is made before it. -/
theorem waitForCloudAPIComplete_no_wait (ops : OpsCloudApi) (mobile : Mobile)
    (backendDetails : BackendDetails) (w : World) (waitFlag : Int)
    (hf : w._waitFlag = some waitFlag) (hneg : waitFlag < 0) :
    (∀ k : Callback, waitForCloudAPIComplete ops mobile backendDetails k w
        = k none backendDetails w) ∧
      (waitForCloudAPIComplete ops mobile backendDetails report w).trace
        = w.trace ++ [Event.report none backendDetails] ∧
      (waitForCloudAPIComplete ops mobile backendDetails report w).queries = w.queries := by
  have h : ∀ k : Callback, waitForCloudAPIComplete ops mobile backendDetails k w
      = k none backendDetails w := by
    intro k
    have hne : waitFlag ≠ 0 := by omega
    unfold waitForCloudAPIComplete
    split
    · simp [hf, hne, hneg]
    · rfl
  refine ⟨h, ?_, ?_⟩
  · rw [h]; rfl
  · rw [h]; rfl

/-- Witness of `waitForCloudAPIComplete_no_wait`: `_waitFlag` is -1 and the
cloud-api feature is enabled. -/
theorem waitForCloudAPIComplete_no_wait_witness :
    (waitForCloudAPIComplete sampleOps (mobileAlways "IN_PROGRESS") (sampleDetails "IN_PROGRESS")
        report
        { World.init (some sampleProject) with
          _waitFlag := some (-1), _enabledFeatures := some ["cloud-api"] }).trace
      = [Event.report none (sampleDetails "IN_PROGRESS")] :=
  (waitForCloudAPIComplete_no_wait sampleOps (mobileAlways "IN_PROGRESS")
    (sampleDetails "IN_PROGRESS")
    { World.init (some sampleProject) with
      _waitFlag := some (-1), _enabledFeatures := some ["cloud-api"] }
    (-1) rfl (by decide)).2.1

/-- C9: whatever the service answers (any answers, also queries that are
never answered), the poller started at `loopCount` 1 with a callback that
makes no status query itself makes at most `maxCloudApiWaitLoop` (100)
status queries. -/
theorem cloudApiWaitLoop_queries_le (ops : OpsCloudApi) (mobile : Mobile) (param : Param)
    (bd : BackendDetails) (k : Callback) (w : World)
    (hk : ∀ e d w, countQueries (k e d w).trace = countQueries w.trace) :
    countQueries (cloudApiWaitLoop ops mobile param bd 1 k w).trace
      ≤ countQueries w.trace + maxCloudApiWaitLoop :=
  countQueries_cloudApiWaitLoop_le ops mobile param k hk maxCloudApiWaitLoop 1 bd w rfl

/-- Witness of `cloudApiWaitLoop_queries_le`: the recording callback and a
service that always answers in progress. -/
theorem cloudApiWaitLoop_queries_le_witness :
    countQueries (cloudApiWaitLoop sampleOps (mobileAlways "IN_PROGRESS") sampleParam
        (sampleDetails "x") 1 report (World.init (some sampleProject))).trace
      ≤ countQueries (World.init (some sampleProject)).trace + maxCloudApiWaitLoop :=
  cloudApiWaitLoop_queries_le sampleOps (mobileAlways "IN_PROGRESS") sampleParam
    (sampleDetails "x") report (World.init (some sampleProject))
    (by
      intro e d w
      simp [report, emit, countQueries])

/-! ## Lemmas: counting the calls of the completion callback -/

theorem onCloudAPIComplete_features (env : Env) (e : Option PollError) (d : BackendDetails)
    (w : World) :
    (onCloudAPIComplete env e d w)._enabledFeatures = w._enabledFeatures := by
  unfold onCloudAPIComplete
  cases w._projectInfo <;> cases e <;> cases hc : w._callback <;>
    simp [raise, setProjectInfo, emit, hc]

theorem onCloudAPIComplete_le (env : Env) (e : Option PollError) (d : BackendDetails)
    (w : World) :
    countCallback (onCloudAPIComplete env e d w).trace ≤ countCallback w.trace + 1 := by
  unfold onCloudAPIComplete
  cases w._projectInfo <;> cases e <;> cases hc : w._callback <;>
    simp [raise, setProjectInfo, emit, hc, countCallback, List.count_append, List.count_cons]

theorem onCloudAPIComplete_once (env : Env) (e : Option PollError) (d : BackendDetails)
    (w : World) (projectInfo : ProjectInfo) (hp : w._projectInfo = some projectInfo)
    (hc : w._callback = true) :
    countCallback (onCloudAPIComplete env e d w).trace = countCallback w.trace + 1 := by
  unfold onCloudAPIComplete
  cases e <;>
    simp [hp, setProjectInfo, emit, hc, countCallback, List.count_append, List.count_cons]

theorem advance_advance (n m : Nat) (c c2 : List Event) (w : World) :
    advance n c (advance m c2 w) = advance (m + n) (c2 ++ c) w := by
  simp [advance, Nat.add_assoc]

theorem cloudApiWaitLoop_cases (ops : OpsCloudApi) (mobile : Mobile) (param : Param)
    (k : Callback)
    (hrec : ∀ i g, stateGroupOf ops (mobile.describeProject i) = some g → 0 ≤ g) (m : Nat) :
    ∀ (lc : Nat) (bd : BackendDetails) (w : World), maxCloudApiWaitLoop + 1 - lc = m →
      ∃ (n : Nat) (calls : List Event), countCallback calls = 0 ∧
        (cloudApiWaitLoop ops mobile param bd lc k w = advance n calls w ∨
          cloudApiWaitLoop ops mobile param bd lc k w
            = raise JsError.ReferenceError (advance n calls w) ∨
          ∃ e d, cloudApiWaitLoop ops mobile param bd lc k w = k e d (advance n calls w)) := by
  induction m with
  | zero =>
    intro lc bd w h
    refine ⟨0, [], rfl, Or.inr (Or.inl ?_)⟩
    rw [cloudApiWaitLoop_over ops mobile param bd lc k w (by omega)]
    simp [advance]
  | succ m ih =>
    intro lc bd w h
    have hlc : ¬ lc > maxCloudApiWaitLoop := by omega
    rw [cloudApiWaitLoop]
    simp only [hlc, if_false, describeProject, emit]
    cases hr : mobile.describeProject w.queries with
    | pending => exact ⟨1, [Event.describeProject param], rfl, Or.inl rfl⟩
    | err =>
      exact ⟨1, [Event.describeProject param, Event.handleMobileException], rfl,
        Or.inr (Or.inr ⟨some ⟨0⟩, bd, by simp [advance]⟩)⟩
    | data d =>
      simp only
      cases hs : ops.getFormationStateSummary d with
      | none => exact ⟨1, [Event.describeProject param], rfl, Or.inr (Or.inr ⟨_, _, rfl⟩)⟩
      | some s =>
        simp only
        by_cases he : s = ""
        · simp only [he, if_true]
          exact ⟨1, [Event.describeProject param], rfl, Or.inr (Or.inr ⟨_, _, rfl⟩)⟩
        · simp only [he, if_false]
          have hg : stateGroupOf ops (mobile.describeProject w.queries)
              = some (ops.getStateGroup s) := by
            simp [hr, stateGroupOf, hs, he]
          have hneg : ¬ ops.getStateGroup s < 0 := by
            have := hrec _ _ hg
            omega
          simp only [hneg, if_false]
          split
          · exact ⟨1, [Event.describeProject param], rfl, Or.inl rfl⟩
          · by_cases h0 : ops.getStateGroup s = 0
            · simp only [h0, if_true]
              obtain ⟨n, calls, hc, hcases⟩ := ih (lc + 1) d
                { w with queries := w.queries + 1,
                         trace := w.trace ++ [Event.describeProject param]
                                    ++ [Event.setTimeout 5000] } (by omega)
              have hadv : ∀ n calls, advance n calls
                  { w with queries := w.queries + 1,
                           trace := w.trace ++ [Event.describeProject param]
                                      ++ [Event.setTimeout 5000] }
                  = advance (1 + n)
                      ([Event.describeProject param, Event.setTimeout 5000] ++ calls) w := by
                intro n calls
                simp [advance, Nat.add_assoc]
              refine ⟨1 + n, [Event.describeProject param, Event.setTimeout 5000] ++ calls, ?_, ?_⟩
              · simp only [countCallback] at hc
                simp [countCallback, List.count_cons, hc]
              · rw [← hadv]
                exact hcases
            · simp only [h0, if_false]
              split
              · exact ⟨1, [Event.describeProject param], rfl, Or.inr (Or.inr ⟨_, _, rfl⟩)⟩
              · exact ⟨1, [Event.describeProject param], rfl, Or.inr (Or.inr ⟨_, _, rfl⟩)⟩

theorem countCallback_advance (n : Nat) (calls : List Event) (w : World) :
    countCallback (advance n calls w).trace = countCallback w.trace + countCallback calls := by
  simp [advance, countCallback, List.count_append]

theorem cloudApiWaitLoop_ends (ops : OpsCloudApi) (mobile : Mobile) (param : Param)
    (bd : BackendDetails) (lc : Nat) (k : Callback) (w : World)
    (hlc : lc ≤ maxCloudApiWaitLoop) (hw : w.thrown = none)
    (hend : endsPoll ops (mobile.describeProject w.queries) = true)
    (hnn : ∀ g, stateGroupOf ops (mobile.describeProject w.queries) = some g → 0 ≤ g) :
    ∃ (e : Option PollError) (d : BackendDetails) (calls : List Event),
      countCallback calls = 0 ∧
      cloudApiWaitLoop ops mobile param bd lc k w = k e d (advance 1 calls w) := by
  have hnot : ¬ lc > maxCloudApiWaitLoop := by omega
  rw [cloudApiWaitLoop]
  simp only [hnot, if_false, describeProject, emit]
  simp only [endsPoll, Bool.and_eq_true, decide_eq_true_eq] at hend
  cases hr : mobile.describeProject w.queries with
  | pending => exact absurd hr hend.1
  | err =>
    exact ⟨some ⟨0⟩, bd, [Event.describeProject param, Event.handleMobileException], rfl,
      by simp [advance]⟩
  | data d =>
    simp only
    cases hs : ops.getFormationStateSummary d with
    | none => exact ⟨_, _, [Event.describeProject param], rfl, rfl⟩
    | some s =>
      simp only
      by_cases he : s = ""
      · simp only [he, if_true]
        exact ⟨_, _, [Event.describeProject param], rfl, rfl⟩
      · simp only [he, if_false]
        have hg : stateGroupOf ops (mobile.describeProject w.queries)
            = some (ops.getStateGroup s) := by
          simp [hr, stateGroupOf, hs, he]
        have hneg : ¬ ops.getStateGroup s < 0 := by
          have := hnn _ hg
          omega
        have h0 : ¬ ops.getStateGroup s = 0 := by
          intro h0
          rw [h0] at hg
          exact hend.2 hg
        simp only [hneg, if_false, hw, Option.isSome_none, h0, Bool.false_eq_true]
        split
        · exact ⟨none, d, [Event.describeProject param], rfl, by simp [advance, hw]⟩
        · exact ⟨some ⟨2⟩, d, [Event.describeProject param], rfl, by simp [advance, hw]⟩

theorem countCallback_inProgressCalls (param : Param) (n : Nat) :
    countCallback (inProgressCalls param n) = 0 := by
  induction n with
  | zero => rfl
  | succ n ih =>
    simp only [countCallback] at ih
    simp [inProgressCalls, countCallback, List.count_cons, ih]

theorem cloudApiWaitLoop_ends_after (ops : OpsCloudApi) (mobile : Mobile) (param : Param)
    (bd : BackendDetails) (k : Callback) (w : World) (n : Nat)
    (hn : n < maxCloudApiWaitLoop) (hw : w.thrown = none)
    (hprog : ∀ i, i < n → stateGroupOf ops (mobile.describeProject (w.queries + i)) = some 0)
    (hend : endsPoll ops (mobile.describeProject (w.queries + n)) = true)
    (hnn : ∀ g, stateGroupOf ops (mobile.describeProject (w.queries + n)) = some g → 0 ≤ g) :
    ∃ (e : Option PollError) (d : BackendDetails) (m : Nat) (calls : List Event),
      countCallback calls = 0 ∧
      cloudApiWaitLoop ops mobile param bd 1 k w = k e d (advance m calls w) := by
  rw [cloudApiWaitLoop_skip ops mobile param k n 1 bd w
    (by simp only [maxCloudApiWaitLoop] at *; omega) hw hprog]
  obtain ⟨e, d, calls, hc, heq⟩ := cloudApiWaitLoop_ends ops mobile param
    (heldDetails mobile bd w.queries n) (1 + n) k (advance n (inProgressCalls param n) w)
    (by simp only [maxCloudApiWaitLoop] at *; omega) (by simp [advance, hw])
    (by simpa [advance] using hend) (by simpa [advance] using hnn)
  refine ⟨e, d, n + 1, inProgressCalls param n ++ calls, ?_, ?_⟩
  · have h2 := countCallback_inProgressCalls param n
    simp only [countCallback] at hc h2
    simp [countCallback, List.count_append, hc, h2]
  · rw [heq, advance_advance]

theorem cloudApiWaitLoop_onComplete_le (env : Env) (param : Param)
    (hrec : ∀ i g, stateGroupOf env.ops (env.mobile.describeProject i) = some g → 0 ≤ g)
    (lc : Nat) (bd : BackendDetails) (w : World) :
    countCallback
        (cloudApiWaitLoop env.ops env.mobile param bd lc (onCloudAPIComplete env) w).trace
      ≤ countCallback w.trace + 1 ∧
    (cloudApiWaitLoop env.ops env.mobile param bd lc (onCloudAPIComplete env) w)._enabledFeatures
      = w._enabledFeatures := by
  obtain ⟨n, calls, hc, hcases⟩ := cloudApiWaitLoop_cases env.ops env.mobile param
    (onCloudAPIComplete env) hrec _ lc bd w rfl
  rcases hcases with h | h | ⟨e, d, h⟩
  · rw [h, countCallback_advance, hc]
    exact ⟨by omega, rfl⟩
  · rw [h]
    simp only [raise, countCallback_advance, hc]
    exact ⟨by omega, rfl⟩
  · rw [h, onCloudAPIComplete_features]
    refine ⟨le_trans (onCloudAPIComplete_le env e d _) ?_, rfl⟩
    rw [countCallback_advance, hc]

theorem waitForCloudAPIComplete_le (env : Env)
    (hrec : ∀ i g, stateGroupOf env.ops (env.mobile.describeProject i) = some g → 0 ≤ g)
    (d : BackendDetails) (w : World) :
    countCallback
        (waitForCloudAPIComplete env.ops env.mobile d (onCloudAPIComplete env) w).trace
      ≤ countCallback w.trace + 1 ∧
    (waitForCloudAPIComplete env.ops env.mobile d (onCloudAPIComplete env) w)._enabledFeatures
      = w._enabledFeatures := by
  unfold waitForCloudAPIComplete
  split
  · split
    · exact ⟨onCloudAPIComplete_le env _ _ _, onCloudAPIComplete_features env _ _ _⟩
    · split
      · simp [raise]
      · exact cloudApiWaitLoop_onComplete_le env _ hrec _ _ _
  · exact ⟨onCloudAPIComplete_le env _ _ _, onCloudAPIComplete_features env _ _ _⟩

theorem updateBackendProject_le (env : Env)
    (hrec : ∀ i g, stateGroupOf env.ops (env.mobile.describeProject i) = some g → 0 ≤ g)
    (w : World) :
    countCallback (updateBackendProject env w).trace ≤ countCallback w.trace + 1 ∧
    (updateBackendProject env w)._enabledFeatures = w._enabledFeatures := by
  unfold updateBackendProject
  cases hp : w._projectInfo with
  | none => simp [raise]
  | some projectInfo =>
    simp only
    cases hu : env.mobile.updateProject with
    | err =>
      cases hs : w.stored <;>
        simp [raise, setProjectInfo, emit, hs, countCallback, List.count_append, List.count_cons]
    | data details =>
      cases details with
      | none => simp [emit, countCallback, List.count_append, List.count_cons]
      | some d =>
        simp only
        have h := waitForCloudAPIComplete_le env hrec d
          { emit (Event.updateProject projectInfo.BackendProjectID) (emit Event.readFileSync w)
            with _projectInfo := w.stored }
        refine ⟨le_trans h.1 ?_, h.2⟩
        simp [emit, countCallback, List.count_append, List.count_cons]

theorem waitForCloudAPIComplete_once (env : Env) (d : BackendDetails) (w : World)
    (projectInfo : ProjectInfo)
    (hrec : ∀ i g, stateGroupOf env.ops (env.mobile.describeProject i) = some g → 0 ≤ g)
    (hp : w._projectInfo = some projectInfo) (hc : w._callback = true) (hw : w.thrown = none)
    (hf : w._enabledFeatures = env.enabledFeatures)
    (hpoll : pollsStatus env w._waitFlag = false ∨
      ∃ n, n < maxCloudApiWaitLoop ∧
        (∀ i, i < n →
          stateGroupOf env.ops (env.mobile.describeProject (w.queries + i)) = some 0) ∧
        endsPoll env.ops (env.mobile.describeProject (w.queries + n)) = true) :
    countCallback
        (waitForCloudAPIComplete env.ops env.mobile d (onCloudAPIComplete env) w).trace
      = countCallback w.trace + 1 := by
  unfold waitForCloudAPIComplete
  rw [hf]
  split
  · rename_i h1
    split
    · exact onCloudAPIComplete_once env _ _ _ projectInfo hp hc
    · rename_i h2
      simp only [hp]
      rcases hpoll with hno | ⟨n, hn, hprog, hend⟩
      · simp only [pollsStatus, h1, Bool.true_and, Bool.not_eq_false_eq_eq_true,
          Bool.not_eq_eq_eq_not, Bool.not_false] at hno
        exact absurd hno h2
      · obtain ⟨e, d2, m, calls, hcalls, heq⟩ := cloudApiWaitLoop_ends_after env.ops env.mobile
          { projectId := projectInfo.BackendProjectID, syncFromResources := true } d
          (onCloudAPIComplete env) w n hn hw hprog hend (hrec _)
        rw [heq, onCloudAPIComplete_once env e d2 _ projectInfo (by simp [advance, hp])
          (by simp [advance, hc]), countCallback_advance, hcalls]
  · exact onCloudAPIComplete_once env _ _ _ projectInfo hp hc

theorem updateBackendProject_once (env : Env) (d : BackendDetails) (w : World)
    (projectInfo stored : ProjectInfo)
    (hrec : ∀ i g, stateGroupOf env.ops (env.mobile.describeProject i) = some g → 0 ≤ g)
    (hp : w._projectInfo = some projectInfo) (hs : w.stored = some stored)
    (hc : w._callback = true) (hw : w.thrown = none)
    (hf : w._enabledFeatures = env.enabledFeatures)
    (hu : env.mobile.updateProject = UpdateResult.data (some d))
    (hpoll : pollsStatus env w._waitFlag = false ∨
      ∃ n, n < maxCloudApiWaitLoop ∧
        (∀ i, i < n →
          stateGroupOf env.ops (env.mobile.describeProject (w.queries + i)) = some 0) ∧
        endsPoll env.ops (env.mobile.describeProject (w.queries + n)) = true) :
    countCallback (updateBackendProject env w).trace = countCallback w.trace + 1 := by
  unfold updateBackendProject
  simp only [hp, hu]
  rw [waitForCloudAPIComplete_once env d _ stored hrec (by simp [emit, hs]) (by simp [emit, hc])
    (by simp [emit, hw]) (by simp [emit, hf]) (by simpa [emit] using hpoll)]
  simp [emit, countCallback, List.count_append, List.count_cons]

theorem hookCallbacks_joined (env : Env) (fs : List String) (reports : List String) :
    ∀ (count : Nat) (w : World), w._enabledFeatures = some fs → fs.length ≤ count →
      hookCallbacks env reports count w = w := by
  induction reports with
  | nil => intro count w _ _; rfl
  | cons r rest ih =>
    intro count w hf hle
    have hne : ¬ count + 1 = fs.length := by omega
    simp only [hookCallbacks, hf, hne, if_false]
    split
    · rfl
    · exact ih (count + 1) w hf (by omega)

theorem hookCallbacks_eq (env : Env) (fs : List String)
    (hrec : ∀ i g, stateGroupOf env.ops (env.mobile.describeProject i) = some g → 0 ≤ g)
    (reports : List String) :
    ∀ (count : Nat) (w : World), w._enabledFeatures = some fs → w.thrown = none →
      hookCallbacks env reports count w =
        if count < fs.length ∧ fs.length ≤ count + reports.length then
          updateBackendProject env w
        else w := by
  induction reports with
  | nil =>
    intro count w _ _
    have : ¬ (count < fs.length ∧ fs.length ≤ count + ([] : List String).length) := by
      simp only [List.length_nil]; omega
    simp only [this, if_false]
    rfl
  | cons r rest ih =>
    intro count w hf hw
    simp only [hookCallbacks, hf, List.length_cons]
    by_cases heq : count + 1 = fs.length
    · have hcond : count < fs.length ∧ fs.length ≤ count + (rest.length + 1) := by omega
      simp only [heq, if_true, hcond, and_self]
      split
      · rfl
      · exact hookCallbacks_joined env fs rest _ _
          (by rw [(updateBackendProject_le env hrec w).2, hf]) (le_refl _)
    · simp only [heq, if_false, hw, Option.isSome_none, Bool.false_eq_true]
      rw [ih (count + 1) w hf hw]
      have hiff : (count + 1 < fs.length ∧ fs.length ≤ count + 1 + rest.length) ↔
          (count < fs.length ∧ fs.length ≤ count + (rest.length + 1)) := by omega
      simp only [hiff]

/-! ## Lemmas: the calls that follow the submission -/

theorem Extends.refl (w : World) : Extends w w :=
  ⟨[], by simp, by simp, rfl⟩

theorem Extends.trans {w w1 w2 : World} (h1 : Extends w w1) (h2 : Extends w1 w2) :
    Extends w w2 := by
  obtain ⟨c1, ht1, hp1, hf1⟩ := h1
  obtain ⟨c2, ht2, hp2, hf2⟩ := h2
  refine ⟨c1 ++ c2, by rw [ht2, ht1, List.append_assoc], ?_, by rw [hf2, hf1]⟩
  intro e he
  rcases List.mem_append.mp he with h | h
  · exact hp1 e h
  · exact hp2 e h

theorem Extends.of_calls (w w2 : World) (calls : List Event)
    (ht : w2.trace = w.trace ++ calls) (hp : ∀ e ∈ calls, isPollPhase e = true)
    (hf : w2._enabledFeatures = w._enabledFeatures) : Extends w w2 :=
  ⟨calls, ht, hp, hf⟩

theorem onCloudAPIComplete_extends (env : Env) (e : Option PollError) (d : BackendDetails)
    (w : World) : Extends w (onCloudAPIComplete env e d w) := by
  unfold onCloudAPIComplete
  cases hp : w._projectInfo with
  | none => exact ⟨[], by simp [raise], by simp, by simp [raise]⟩
  | some projectInfo =>
    cases e <;> cases hc : w._callback
    · exact ⟨[Event.setProjectInfo { projectInfo with
          BackendLastUpdateTime := env.now, BackendLastUpdateSuccessful := true },
        Event.syncCurrentBackendInfo d],
        by simp [setProjectInfo, emit, hc], by simp [isPollPhase],
        by simp [setProjectInfo, emit, hc]⟩
    · exact ⟨[Event.setProjectInfo { projectInfo with
          BackendLastUpdateTime := env.now, BackendLastUpdateSuccessful := true },
        Event.syncCurrentBackendInfo d, Event.callback],
        by simp [setProjectInfo, emit, hc], by simp [isPollPhase],
        by simp [setProjectInfo, emit, hc]⟩
    · exact ⟨[Event.setProjectInfo { projectInfo with
          BackendLastUpdateTime := env.now, BackendLastUpdateSuccessful := false },
        Event.syncCurrentBackendInfo d],
        by simp [setProjectInfo, emit, hc], by simp [isPollPhase],
        by simp [setProjectInfo, emit, hc]⟩
    · exact ⟨[Event.setProjectInfo { projectInfo with
          BackendLastUpdateTime := env.now, BackendLastUpdateSuccessful := false },
        Event.syncCurrentBackendInfo d, Event.callback],
        by simp [setProjectInfo, emit, hc], by simp [isPollPhase],
        by simp [setProjectInfo, emit, hc]⟩

theorem cloudApiWaitLoop_extends (ops : OpsCloudApi) (mobile : Mobile) (param : Param)
    (k : Callback) (hk : ∀ e d w, Extends w (k e d w)) (m : Nat) :
    ∀ (lc : Nat) (bd : BackendDetails) (w : World), maxCloudApiWaitLoop + 1 - lc = m →
      Extends w (cloudApiWaitLoop ops mobile param bd lc k w) := by
  induction m with
  | zero =>
    intro lc bd w h
    rw [cloudApiWaitLoop_over ops mobile param bd lc k w (by omega)]
    exact ⟨[], by simp [raise], by simp, by simp [raise]⟩
  | succ m ih =>
    intro lc bd w h
    have hlc : ¬ lc > maxCloudApiWaitLoop := by omega
    have hq : Extends w { w with queries := w.queries + 1,
                                 trace := w.trace ++ [Event.describeProject param] } :=
      ⟨[Event.describeProject param], rfl, by simp [isPollPhase], rfl⟩
    have hh : Extends w
        { w with queries := w.queries + 1,
                 trace := w.trace ++ [Event.describeProject param]
                            ++ [Event.handleMobileException] } :=
      ⟨[Event.describeProject param, Event.handleMobileException], by simp,
        by simp [isPollPhase], rfl⟩
    rw [cloudApiWaitLoop]
    simp only [hlc, if_false, describeProject, emit]
    cases hr : mobile.describeProject w.queries with
    | pending => exact hq
    | err => exact hh.trans (hk _ _ _)
    | data d =>
      simp only
      cases hs : ops.getFormationStateSummary d with
      | none => exact hq.trans (hk _ _ _)
      | some s =>
        simp only
        by_cases he : s = ""
        · simp only [he, if_true]
          exact hq.trans (hk _ _ _)
        · simp only [he, if_false]
          have hw1 : Extends w
              (if ops.getStateGroup s < 0 then
                k (some ⟨-1⟩) d { w with queries := w.queries + 1,
                                         trace := w.trace ++ [Event.describeProject param] }
              else { w with queries := w.queries + 1,
                            trace := w.trace ++ [Event.describeProject param] }) := by
            split
            · exact hq.trans (hk _ _ _)
            · exact hq
          generalize (if ops.getStateGroup s < 0 then
                k (some ⟨-1⟩) d { w with queries := w.queries + 1,
                                         trace := w.trace ++ [Event.describeProject param] }
              else { w with queries := w.queries + 1,
                            trace := w.trace ++ [Event.describeProject param] }) = w1 at hw1 ⊢
          split
          · exact hw1
          · split
            · refine hw1.trans (Extends.trans ?_ (ih (lc + 1) d _ (by omega)))
              exact ⟨[Event.setTimeout 5000], rfl, by simp [isPollPhase], rfl⟩
            · split
              · exact hw1.trans (hk _ _ _)
              · exact hw1.trans (hk _ _ _)

theorem waitForCloudAPIComplete_extends (env : Env) (d : BackendDetails) (w : World) :
    Extends w (waitForCloudAPIComplete env.ops env.mobile d (onCloudAPIComplete env) w) := by
  unfold waitForCloudAPIComplete
  split
  · split
    · exact onCloudAPIComplete_extends env _ _ _
    · split
      · exact ⟨[], by simp [raise], by simp, by simp [raise]⟩
      · exact cloudApiWaitLoop_extends env.ops env.mobile _ (onCloudAPIComplete env)
          (onCloudAPIComplete_extends env) _ 1 d w rfl
  · exact onCloudAPIComplete_extends env _ _ _

theorem updateBackendProject_calls (env : Env) (w : World) (projectInfo : ProjectInfo)
    (hp : w._projectInfo = some projectInfo) :
    ∃ calls : List Event,
      (updateBackendProject env w).trace =
        w.trace ++
          Event.readFileSync :: Event.updateProject projectInfo.BackendProjectID :: calls ∧
      (∀ e ∈ calls, isPollPhase e = true) ∧
      (updateBackendProject env w)._enabledFeatures = w._enabledFeatures := by
  unfold updateBackendProject
  simp only [hp]
  cases hu : env.mobile.updateProject with
  | err =>
    cases hs : w.stored with
    | none => exact ⟨[], by simp [raise, emit, hs], by simp, by simp [raise, emit, hs]⟩
    | some stored =>
      exact ⟨[Event.handleMobileException,
          Event.setProjectInfo { stored with
            BackendLastUpdateTime := env.now, BackendLastUpdateSuccessful := false }],
        by simp [setProjectInfo, emit, hs], by simp [isPollPhase],
        by simp [setProjectInfo, emit, hs]⟩
  | data details =>
    cases details with
    | none => exact ⟨[], by simp [emit], by simp, by simp [emit]⟩
    | some d =>
      simp only
      obtain ⟨calls, ht, hpoll, hf⟩ := waitForCloudAPIComplete_extends env d
        { emit (Event.updateProject projectInfo.BackendProjectID) (emit Event.readFileSync w)
          with _projectInfo := w.stored }
      exact ⟨calls, by simpa [emit] using ht, hpoll, by simpa [emit] using hf⟩

theorem updateBackendProject_features (env : Env) (w : World) :
    (updateBackendProject env w)._enabledFeatures = w._enabledFeatures := by
  cases hp : w._projectInfo with
  | none => simp [updateBackendProject, hp, raise]
  | some projectInfo =>
    obtain ⟨_, _, _, hf⟩ := updateBackendProject_calls env w projectInfo hp
    exact hf

theorem hookCallbacks_short (env : Env) (fs : List String) (reports : List String) :
    ∀ (count : Nat) (w : World), w._enabledFeatures = some fs →
      count + reports.length < fs.length → hookCallbacks env reports count w = w := by
  induction reports with
  | nil => intro count w _ _; rfl
  | cons r rest ih =>
    intro count w hf hlt
    simp only [List.length_cons] at hlt
    have hne : ¬ count + 1 = fs.length := by omega
    simp only [hookCallbacks, hf, hne, if_false]
    split
    · rfl
    · exact ih (count + 1) w hf (by omega)

theorem hookCallbacks_reached (env : Env) (fs : List String) (reports : List String) :
    ∀ (count : Nat) (w : World), w._enabledFeatures = some fs → w.thrown = none →
      count < fs.length → fs.length ≤ count + reports.length →
      hookCallbacks env reports count w = updateBackendProject env w := by
  induction reports with
  | nil =>
    intro count w _ _ hlt hle
    simp only [List.length_nil] at hle
    omega
  | cons r rest ih =>
    intro count w hf hw hlt hle
    simp only [List.length_cons] at hle
    simp only [hookCallbacks, hf]
    by_cases heq : count + 1 = fs.length
    · simp only [heq, if_true]
      split
      · rfl
      · exact hookCallbacks_joined env fs rest _ _
          (by rw [updateBackendProject_features, hf]) (le_refl _)
    · simp only [heq, if_false, hw, Option.isSome_none, Bool.false_eq_true]
      exact ih (count + 1) w hf hw (by omega) (by omega)

/-! ## Lemmas: the completion callback across the hooks -/

theorem countCallback_map_preBackendUpdate (fs : List String) :
    countCallback (fs.map Event.preBackendUpdate) = 0 := by
  induction fs with
  | nil => rfl
  | cons f rest ih =>
    simp only [countCallback] at ih
    simp [countCallback, List.count_cons, ih]

theorem syncCalls_cons (env : Env) (f : String) (fs : List String) :
    syncCalls env (f :: fs) = env.hookSyncCalls f + syncCalls env fs := by
  simp [syncCalls]

theorem syncCalls_append (env : Env) (fs gs : List String) :
    syncCalls env (fs ++ gs) = syncCalls env fs + syncCalls env gs := by
  simp [syncCalls]

theorem forEachHook_idle (env : Env) (fs0 : List String) (fs : List String) :
    ∀ (count : Nat) (w : World), w._enabledFeatures = some fs0 → w.thrown = none →
      (count + syncCalls env fs < fs0.length ∨ fs0.length ≤ count) →
      forEachHook env fs count w =
        (count + syncCalls env fs, advance 0 (fs.map Event.preBackendUpdate) w) := by
  induction fs with
  | nil =>
    intro count w _ _ _
    simp [forEachHook, advance, syncCalls]
  | cons f rest ih =>
    intro count w hf hw hcond
    rw [syncCalls_cons] at hcond
    have hstep : hookCallbacks env (List.replicate (env.hookSyncCalls f) f) count
        (emit (Event.preBackendUpdate f) w) = emit (Event.preBackendUpdate f) w := by
      rcases hcond with h | h
      · exact hookCallbacks_short env fs0 _ count _ (by simp [emit, hf])
          (by simp only [List.length_replicate]; omega)
      · exact hookCallbacks_joined env fs0 _ count _ (by simp [emit, hf]) h
    have hthrown : (emit (Event.preBackendUpdate f) w).thrown = none := by simp [emit, hw]
    simp only [forEachHook, hstep, List.length_replicate, hthrown, Option.isSome_none,
      Bool.false_eq_true, if_false]
    rw [ih (count + env.hookSyncCalls f) _ (by simp [emit, hf]) hthrown (by omega),
      syncCalls_cons]
    simp [advance, emit, Nat.add_assoc]

theorem exists_hook_split (env : Env) (len : Nat) (fs : List String) :
    ∀ count, count < len → len ≤ count + syncCalls env fs →
      ∃ before f later, fs = before ++ f :: later ∧
        count + syncCalls env before < len ∧
        len ≤ count + syncCalls env before + env.hookSyncCalls f := by
  induction fs with
  | nil =>
    intro count hlt hle
    simp only [syncCalls, List.map_nil, List.sum_nil] at hle
    omega
  | cons f rest ih =>
    intro count hlt hle
    rw [syncCalls_cons] at hle
    by_cases h : len ≤ count + env.hookSyncCalls f
    · exact ⟨[], f, rest, rfl, by simpa [syncCalls] using hlt, by simpa [syncCalls] using h⟩
    · obtain ⟨before, g, later, heq, h1, h2⟩ :=
        ih (count + env.hookSyncCalls f) (by omega) (by omega)
      refine ⟨f :: before, g, later, by rw [heq]; rfl, ?_, ?_⟩
      · rw [syncCalls_cons]; omega
      · rw [syncCalls_cons]; omega

theorem forEachHook_fire (env : Env) (fs0 : List String) (f : String)
    (later : List String) (before : List String) :
    ∀ (count : Nat) (w : World), w._enabledFeatures = some fs0 → w.thrown = none →
      count + syncCalls env before < fs0.length →
      fs0.length ≤ count + syncCalls env before + env.hookSyncCalls f →
      forEachHook env (before ++ f :: later) count w =
        if (updateBackendProject env
              (advance 0 ((before ++ [f]).map Event.preBackendUpdate) w)).thrown.isSome then
          (count + syncCalls env before + env.hookSyncCalls f,
            updateBackendProject env
              (advance 0 ((before ++ [f]).map Event.preBackendUpdate) w))
        else
          (count + syncCalls env (before ++ f :: later),
            advance 0 (later.map Event.preBackendUpdate)
              (updateBackendProject env
                (advance 0 ((before ++ [f]).map Event.preBackendUpdate) w))) := by
  induction before with
  | nil =>
    intro count w hf hw hlt hle
    simp only [syncCalls, List.map_nil, List.sum_nil, Nat.add_zero] at hlt hle
    have hstep : hookCallbacks env (List.replicate (env.hookSyncCalls f) f) count
        (emit (Event.preBackendUpdate f) w)
        = updateBackendProject env (emit (Event.preBackendUpdate f) w) :=
      hookCallbacks_reached env fs0 _ count _ (by simp [emit, hf]) (by simp [emit, hw]) hlt
        (by simp only [List.length_replicate]; exact hle)
    have hadv : advance 0 (([] ++ [f]).map Event.preBackendUpdate) w
        = emit (Event.preBackendUpdate f) w := by
      simp [advance, emit]
    rw [hadv]
    simp only [List.nil_append, forEachHook, hstep, List.length_replicate]
    split
    · simp [syncCalls]
    · rename_i hnot
      rw [forEachHook_idle env fs0 later _ _
        (by rw [updateBackendProject_features]; simp [emit, hf])
        (by simpa using hnot) (Or.inr hle)]
      simp [syncCalls, Nat.add_assoc]
  | cons b rest ih =>
    intro count w hf hw hlt hle
    rw [syncCalls_cons] at hlt hle
    have hstep : hookCallbacks env (List.replicate (env.hookSyncCalls b) b) count
        (emit (Event.preBackendUpdate b) w) = emit (Event.preBackendUpdate b) w :=
      hookCallbacks_short env fs0 _ count _ (by simp [emit, hf])
        (by simp only [List.length_replicate]; omega)
    have hthrown : (emit (Event.preBackendUpdate b) w).thrown = none := by simp [emit, hw]
    have hadv : advance 0 (((b :: rest) ++ [f]).map Event.preBackendUpdate) w
        = advance 0 ((rest ++ [f]).map Event.preBackendUpdate)
            (emit (Event.preBackendUpdate b) w) := by
      simp [advance, emit]
    rw [hadv]
    simp only [List.cons_append, forEachHook, hstep, List.length_replicate, hthrown,
      Option.isSome_none, Bool.false_eq_true, if_false, List.append_eq]
    rw [ih (count + env.hookSyncCalls b) _ (by simp [emit, hf]) hthrown (by omega) (by omega)]
    simp only [← List.cons_append, syncCalls_cons, syncCalls_append, Nat.add_assoc]

theorem preUpdateAction_unfold (env : Env) (w : World) (projectInfo : ProjectInfo)
    (fs : List String) (hp : w._projectInfo = some projectInfo)
    (hf : env.enabledFeatures = some fs) (hlen : 0 < fs.length) :
    preUpdateAction env w =
      if (forEachHook env fs 0 { w with _enabledFeatures := some fs }).2.thrown.isSome then
        (forEachHook env fs 0 { w with _enabledFeatures := some fs }).2
      else
        hookCallbacks env env.hookReports
          (forEachHook env fs 0 { w with _enabledFeatures := some fs }).1
          (forEachHook env fs 0 { w with _enabledFeatures := some fs }).2 := by
  unfold preUpdateAction
  simp only [hf, hlen, gt_iff_lt, decide_True, if_true, hp]

theorem preUpdateAction_shape (env : Env) (w : World) (projectInfo : ProjectInfo)
    (fs : List String) (hp : w._projectInfo = some projectInfo) (hw : w.thrown = none)
    (hf : env.enabledFeatures = some fs) (hlen : 0 < fs.length) :
    (syncCalls env fs + env.hookReports.length < fs.length →
      preUpdateAction env w =
        advance 0 (fs.map Event.preBackendUpdate) { w with _enabledFeatures := some fs }) ∧
    (syncCalls env fs < fs.length → fs.length ≤ syncCalls env fs + env.hookReports.length →
      preUpdateAction env w =
        updateBackendProject env
          (advance 0 (fs.map Event.preBackendUpdate) { w with _enabledFeatures := some fs })) ∧
    (∀ before f later, fs = before ++ f :: later → syncCalls env before < fs.length →
      fs.length ≤ syncCalls env before + env.hookSyncCalls f →
      preUpdateAction env w =
        if (updateBackendProject env
              (advance 0 ((before ++ [f]).map Event.preBackendUpdate)
                { w with _enabledFeatures := some fs })).thrown.isSome then
          updateBackendProject env
            (advance 0 ((before ++ [f]).map Event.preBackendUpdate)
              { w with _enabledFeatures := some fs })
        else
          advance 0 (later.map Event.preBackendUpdate)
            (updateBackendProject env
              (advance 0 ((before ++ [f]).map Event.preBackendUpdate)
                { w with _enabledFeatures := some fs }))) := by
  have hunfold := preUpdateAction_unfold env w projectInfo fs hp hf hlen
  have hidle : syncCalls env fs < fs.length →
      forEachHook env fs 0 { w with _enabledFeatures := some fs } =
        (syncCalls env fs,
          advance 0 (fs.map Event.preBackendUpdate) { w with _enabledFeatures := some fs }) := by
    intro hlt
    rw [forEachHook_idle env fs fs 0 _ rfl (by simp [hw]) (Or.inl (by omega)), Nat.zero_add]
  have hthr : (advance 0 (fs.map Event.preBackendUpdate)
      { w with _enabledFeatures := some fs }).thrown = none := by
    simp [advance, hw]
  have hfeat : (advance 0 (fs.map Event.preBackendUpdate)
      { w with _enabledFeatures := some fs })._enabledFeatures = some fs := by
    simp [advance]
  refine ⟨?_, ?_, ?_⟩
  · intro hlt
    rw [hunfold, hidle (by omega)]
    simp only [hthr, Option.isSome_none, Bool.false_eq_true, if_false]
    exact hookCallbacks_short env fs _ _ _ hfeat hlt
  · intro hlt hle
    rw [hunfold, hidle hlt]
    simp only [hthr, Option.isSome_none, Bool.false_eq_true, if_false]
    exact hookCallbacks_reached env fs _ _ _ hfeat hthr hlt hle
  · intro before f later hsplit hlt hle
    have hsum : fs.length ≤ 0 + syncCalls env fs := by
      have hs2 : syncCalls env fs
          = syncCalls env before + (env.hookSyncCalls f + syncCalls env later) := by
        rw [hsplit, syncCalls_append, syncCalls_cons]
      omega
    have hfire := forEachHook_fire env fs f later before 0
      { w with _enabledFeatures := some fs } rfl (by simp [hw]) (by omega) (by omega)
    rw [← hsplit] at hfire
    rw [hunfold, hfire]
    by_cases hthrown : (updateBackendProject env
        (advance 0 ((before ++ [f]).map Event.preBackendUpdate)
          { w with _enabledFeatures := some fs })).thrown.isSome = true
    · simp only [hthrown, if_true]
    · have hthrown2 : (advance 0 (later.map Event.preBackendUpdate)
          (updateBackendProject env
            (advance 0 ((before ++ [f]).map Event.preBackendUpdate)
              { w with _enabledFeatures := some fs }))).thrown.isSome = false := by
        simpa [advance] using hthrown
      simp only [hthrown, if_false, hthrown2, Bool.false_eq_true]
      exact hookCallbacks_joined env fs _ _ _
        (by
          show (updateBackendProject env _)._enabledFeatures = some fs
          rw [updateBackendProject_features]
          simp [advance])
        hsum

theorem countCallback_hooks (fs : List String) (w : World) :
    countCallback (advance 0 (fs.map Event.preBackendUpdate) w).trace
      = countCallback w.trace := by
  rw [countCallback_advance, countCallback_map_preBackendUpdate]
  rfl

theorem preUpdateAction_le (env : Env)
    (hrec : ∀ i g, stateGroupOf env.ops (env.mobile.describeProject i) = some g → 0 ≤ g)
    (w : World) (hw : w.thrown = none) :
    countCallback (preUpdateAction env w).trace ≤ countCallback w.trace + 1 := by
  cases hf : env.enabledFeatures with
  | none =>
    unfold preUpdateAction
    simp only [hf, Bool.false_eq_true, if_false]
    exact (updateBackendProject_le env hrec _).1
  | some fs =>
    by_cases hlen : fs.length > 0
    · cases hp : w._projectInfo with
      | none =>
        unfold preUpdateAction
        simp [hf, hlen, hp, raise]
      | some projectInfo =>
        obtain ⟨h1, h2, h3⟩ := preUpdateAction_shape env w projectInfo fs hp hw hf hlen
        by_cases hshort : syncCalls env fs + env.hookReports.length < fs.length
        · rw [h1 hshort, countCallback_hooks]
          simp
        · by_cases hsync : syncCalls env fs < fs.length
          · rw [h2 hsync (by omega)]
            refine le_trans (updateBackendProject_le env hrec _).1 ?_
            rw [countCallback_hooks]
          · obtain ⟨before, f, later, hsplit, hlt, hle⟩ :=
              exists_hook_split env fs.length fs 0 hlen (by omega)
            rw [h3 before f later hsplit (by omega) (by omega)]
            have hle1 := (updateBackendProject_le env hrec
              (advance 0 ((before ++ [f]).map Event.preBackendUpdate)
                { w with _enabledFeatures := some fs })).1
            rw [countCallback_hooks] at hle1
            split
            · simpa using hle1
            · rw [countCallback_hooks]
              simpa using hle1
    · unfold preUpdateAction
      simp only [hf, hlen, decide_False, Bool.false_eq_true, if_false]
      exact (updateBackendProject_le env hrec _).1

theorem preUpdateAction_once (env : Env) (d : BackendDetails) (w : World)
    (projectInfo stored : ProjectInfo)
    (hrec : ∀ i g, stateGroupOf env.ops (env.mobile.describeProject i) = some g → 0 ≤ g)
    (hp : w._projectInfo = some projectInfo) (hs : w.stored = some stored)
    (hc : w._callback = true) (hw : w.thrown = none)
    (hjoin : hooksJoin env = true)
    (hu : env.mobile.updateProject = UpdateResult.data (some d))
    (hpoll : pollsStatus env w._waitFlag = false ∨
      ∃ n, n < maxCloudApiWaitLoop ∧
        (∀ i, i < n →
          stateGroupOf env.ops (env.mobile.describeProject (w.queries + i)) = some 0) ∧
        endsPoll env.ops (env.mobile.describeProject (w.queries + n)) = true) :
    countCallback (preUpdateAction env w).trace = countCallback w.trace + 1 := by
  cases hf : env.enabledFeatures with
  | none =>
    unfold preUpdateAction
    simp only [hf, Bool.false_eq_true, if_false]
    exact updateBackendProject_once env d _ projectInfo stored hrec hp hs hc hw hf.symm hu hpoll
  | some fs =>
    by_cases hlen : fs.length > 0
    · obtain ⟨_, h2, h3⟩ := preUpdateAction_shape env w projectInfo fs hp hw hf hlen
      have hle : fs.length ≤ syncCalls env fs + env.hookReports.length := by
        simpa [hooksJoin, hf] using hjoin
      have honce : ∀ hooks : List String,
          countCallback (updateBackendProject env
            (advance 0 (hooks.map Event.preBackendUpdate)
              { w with _enabledFeatures := some fs })).trace = countCallback w.trace + 1 := by
        intro hooks
        rw [updateBackendProject_once env d _ projectInfo stored hrec (by simp [advance, hp])
          (by simp [advance, hs]) (by simp [advance, hc]) (by simp [advance, hw])
          (by simp [advance, hf]) hu (by simpa [advance] using hpoll), countCallback_hooks]
      by_cases hsync : syncCalls env fs < fs.length
      · rw [h2 hsync hle]
        exact honce fs
      · obtain ⟨before, f, later, hsplit, hlt, hle2⟩ :=
          exists_hook_split env fs.length fs 0 hlen (by omega)
        rw [h3 before f later hsplit (by omega) (by omega)]
        split
        · exact honce _
        · rw [countCallback_hooks]
          exact honce _
    · unfold preUpdateAction
      simp only [hf, hlen, decide_False, Bool.false_eq_true, if_false]
      exact updateBackendProject_once env d _ projectInfo stored hrec hp hs hc hw hf.symm hu
        hpoll

theorem updateBackend_le (env : Env)
    (hrec : ∀ i g, stateGroupOf env.ops (env.mobile.describeProject i) = some g → 0 ≤ g)
    (w : World) (hw : w.thrown = none) :
    countCallback (updateBackend env w).trace ≤ countCallback w.trace + 1 := by
  unfold updateBackend
  cases hp : w._projectInfo with
  | none => simp [raise, emit, hp, countCallback, List.count_append, List.count_cons]
  | some projectInfo =>
    simp only [emit, hp]
    split
    · refine le_trans (preUpdateAction_le env hrec _ (by simp [hw])) ?_
      simp [countCallback, List.count_append, List.count_cons]
    · split <;> simp [countCallback, List.count_append, List.count_cons]

theorem updateBackend_nothing (env : Env) (w : World) (projectInfo : ProjectInfo)
    (hp : w._projectInfo = some projectInfo) (hc : w._callback = true)
    (hno : (isNewUpdateNeeded projectInfo.BackendLastUpdateSuccessful env.existsSync
        (env.parseTime projectInfo.BackendLastUpdateTime) env.dirContentMTime
      || w._forcedPushFlag) = false) :
    countCallback (updateBackend env w).trace = countCallback w.trace + 1 := by
  unfold updateBackend
  simp only [emit, hp, hno, Bool.false_eq_true, if_false, hc, if_true]
  simp [countCallback, List.count_append, List.count_cons]

theorem updateBackend_once (env : Env) (d : BackendDetails) (w : World)
    (projectInfo stored : ProjectInfo)
    (hrec : ∀ i g, stateGroupOf env.ops (env.mobile.describeProject i) = some g → 0 ≤ g)
    (hp : w._projectInfo = some projectInfo) (hs : w.stored = some stored)
    (hc : w._callback = true) (hw : w.thrown = none)
    (hyes : (isNewUpdateNeeded projectInfo.BackendLastUpdateSuccessful env.existsSync
        (env.parseTime projectInfo.BackendLastUpdateTime) env.dirContentMTime
      || w._forcedPushFlag) = true)
    (hjoin : hooksJoin env = true)
    (hu : env.mobile.updateProject = UpdateResult.data (some d))
    (hpoll : pollsStatus env w._waitFlag = false ∨
      ∃ n, n < maxCloudApiWaitLoop ∧
        (∀ i, i < n →
          stateGroupOf env.ops (env.mobile.describeProject (w.queries + i)) = some 0) ∧
        endsPoll env.ops (env.mobile.describeProject (w.queries + n)) = true) :
    countCallback (updateBackend env w).trace = countCallback w.trace + 1 := by
  unfold updateBackend
  simp only [emit, hp, hyes, if_true]
  rw [preUpdateAction_once env d _ projectInfo stored hrec (by simp [hp]) (by simp [hs])
    (by simp [hc]) (by simp [hw]) hjoin hu (by simpa using hpoll)]
  simp [countCallback, List.count_append, List.count_cons]

/-! ## Theorems: the orchestrator -/

/-- C10: with a recorded backend project id, when
`checkBackendProjectLastUpdateTime` is false and the user does not confirm
the forced push, the run makes these calls only: `checkAWSConfig`,
`getLatestBackendDetails`, the two prompts and, if the user asks for it,
`opn`.  The build, the staleness check, the hooks and `updateProject` are
not among them, `_forcedPushFlag` keeps its value and the project record
is not written. -/
theorem run_declined_stops (env : Env) (callback : Bool) (waitFlag : Option Int)
    (syncToDevFlag : Bool) (w : World) (projectInfo : ProjectInfo)
    (hstored : w.stored = some projectInfo)
    (hid : projectInfo.BackendProjectID.length > 0)
    (hconflict :
      env.checkBackendProjectLastUpdateTime projectInfo env.latestBackendDetails = false)
    (hdecline : env.forcePush = false) :
    ∃ calls : List Event,
      (run env callback waitFlag syncToDevFlag w).trace = w.trace ++ calls ∧
      calls =
        [Event.checkAWSConfig, Event.getLatestBackendDetails projectInfo.BackendProjectID,
          Event.prompt "forcePush", Event.prompt "openConsole"] ++
          (if env.openConsole then [Event.opn env.latestBackendDetails.consoleUrl] else []) ∧
      Event.build ∉ calls ∧
      (∀ b, Event.isNewUpdateNeeded b ∉ calls) ∧
      (∀ f, Event.preBackendUpdate f ∉ calls) ∧
      (∀ i, Event.updateProject i ∉ calls) ∧
      (run env callback waitFlag syncToDevFlag w)._forcedPushFlag = w._forcedPushFlag ∧
      (run env callback waitFlag syncToDevFlag w).stored = w.stored := by
  refine ⟨_, ?_, rfl, ?_, ?_, ?_, ?_, ?_, ?_⟩
  · cases ho : env.openConsole <;>
      simp [run, checkLatestInCloud, emit, hstored, hid, hconflict, hdecline, ho]
  · cases ho : env.openConsole <;> simp
  · intro b; cases ho : env.openConsole <;> simp
  · intro f; cases ho : env.openConsole <;> simp
  · intro i; cases ho : env.openConsole <;> simp
  · cases ho : env.openConsole <;>
      simp [run, checkLatestInCloud, emit, hstored, hid, hconflict, hdecline, ho]
  · cases ho : env.openConsole <;>
      simp [run, checkLatestInCloud, emit, hstored, hid, hconflict, hdecline, ho]

/-- Witness of `run_declined_stops`: the remote project is ahead and the
user declines. -/
theorem run_declined_stops_witness :
    ∃ calls : List Event,
      (run (sampleEnv true false (mobileAfter 0)) true none false
          (World.init (some sampleProject))).trace
        = (World.init (some sampleProject)).trace ++ calls ∧
      Event.build ∉ calls ∧
      (run (sampleEnv true false (mobileAfter 0)) true none false
          (World.init (some sampleProject)))._forcedPushFlag = false :=
  have h := run_declined_stops (sampleEnv true false (mobileAfter 0)) true none false
    (World.init (some sampleProject)) sampleProject rfl (by decide) rfl rfl
  h.elim (fun calls hc => ⟨calls, hc.1, hc.2.2.1, hc.2.2.2.2.2.2.1⟩)



/-- C1, as stated, fails in both directions, on runs with a recorded
backend project id and a completion callback: when the remote project is
ahead and the user declines the forced push, the callback is never called;
when the first status answer is classified unrecognized, it is called
twice. -/
theorem run_callback_exactly_once_fails :
    countCallback (run (sampleEnv true false (mobileAfter 0)) true none false
        (World.init (some sampleProject))).trace = 0 ∧
    countCallback (run (sampleEnv false false (mobileAlways "WEIRD")) true none false
        (World.init (some sampleProject))).trace = 2 := by
  have hlen : 0 < "id-1".length := by decide
  constructor
  · simp [run, checkLatestInCloud, emit, sampleEnv, World.init, sampleProject, countCallback,
      hlen]
  · simp [run, checkLatestInCloud, updateBackend, preUpdateAction, forEachHook, hookCallbacks,
      updateBackendProject, waitForCloudAPIComplete, isNewUpdateNeeded, Moment.isValid,
      Moment.isBefore, emit, sampleEnv, World.init, sampleProject, sampleOps, mobileAlways, hlen]
    rw [cloudApiWaitLoop_unrecognized _ _ _ _ (sampleDetails "WEIRD") _ _ _ (-1) (by decide)
      (by rfl) (by simp [stateGroupOf, sampleDetails]) (by decide)]
    simp [onCloudAPIComplete, advance, setProjectInfo, emit, countCallback]

/-- C1, amended: on a run with a recorded backend project id and a
completion callback, in which no status answer is classified unrecognized
(no negative state group), the completion callback is called at most once.
It is not called when the remote project is ahead and the user declines
the forced push.  It is called exactly once when the conflict check passes
or the user confirms, and either no update is needed and the forced-push
flag is not set, or an update is needed or forced, the hooks report at
least as many times as there are enabled features, `updateProject`
returns details, and the poller does not poll or receives, after fewer
than `maxCloudApiWaitLoop` answers in progress, an answer that is not in
progress. -/
theorem run_callback_at_most_once (env : Env) (waitFlag : Option Int) (syncToDevFlag : Bool)
    (w : World) (projectInfo : ProjectInfo)
    (hstored : w.stored = some projectInfo)
    (hid : projectInfo.BackendProjectID.length > 0)
    (hw : w.thrown = none)
    (hrec : ∀ i g, stateGroupOf env.ops (env.mobile.describeProject i) = some g → 0 ≤ g) :
    countCallback (run env true waitFlag syncToDevFlag w).trace ≤ countCallback w.trace + 1 ∧
    (env.checkBackendProjectLastUpdateTime projectInfo env.latestBackendDetails = false →
      env.forcePush = false →
      countCallback (run env true waitFlag syncToDevFlag w).trace = countCallback w.trace) ∧
    ((env.checkBackendProjectLastUpdateTime projectInfo env.latestBackendDetails = true ∨
        env.forcePush = true) →
      (isNewUpdateNeeded projectInfo.BackendLastUpdateSuccessful env.existsSync
          (env.parseTime projectInfo.BackendLastUpdateTime) env.dirContentMTime
        || (w._forcedPushFlag ||
            !env.checkBackendProjectLastUpdateTime projectInfo env.latestBackendDetails))
        = false →
      countCallback (run env true waitFlag syncToDevFlag w).trace
        = countCallback w.trace + 1) ∧
    ((env.checkBackendProjectLastUpdateTime projectInfo env.latestBackendDetails = true ∨
        env.forcePush = true) →
      (isNewUpdateNeeded projectInfo.BackendLastUpdateSuccessful env.existsSync
          (env.parseTime projectInfo.BackendLastUpdateTime) env.dirContentMTime
        || (w._forcedPushFlag ||
            !env.checkBackendProjectLastUpdateTime projectInfo env.latestBackendDetails))
        = true →
      hooksJoin env = true →
      (∃ d, env.mobile.updateProject = UpdateResult.data (some d)) →
      (pollsStatus env waitFlag = false ∨
        ∃ n, n < maxCloudApiWaitLoop ∧
          (∀ i, i < n →
            stateGroupOf env.ops (env.mobile.describeProject (w.queries + i)) = some 0) ∧
          endsPoll env.ops (env.mobile.describeProject (w.queries + n)) = true) →
      countCallback (run env true waitFlag syncToDevFlag w).trace
        = countCallback w.trace + 1) := by
  cases hcheck : env.checkBackendProjectLastUpdateTime projectInfo env.latestBackendDetails
  · cases hforce : env.forcePush
    · have hrun : countCallback (run env true waitFlag syncToDevFlag w).trace
          = countCallback w.trace := by
        cases ho : env.openConsole <;>
          simp [run, checkLatestInCloud, emit, hstored, hid, hcheck, hforce, ho, countCallback,
            List.count_append, List.count_cons]
      refine ⟨by omega, fun _ _ => hrun, ?_, ?_⟩
      · intro h; simp at h
      · intro h; simp at h
    · simp only [run, checkLatestInCloud, emit, hstored, hid, hcheck, hforce, if_true,
        Bool.false_eq_true, if_false]
      refine ⟨?_, ?_, ?_, ?_⟩
      · refine le_trans (updateBackend_le env hrec _ (by simp [hw])) ?_
        simp [countCallback, List.count_append, List.count_cons]
      · intro _ h; simp at h
      · intro _ h; simp at h
      · intro _ hyes hjoin hu hpoll
        obtain ⟨d, hu⟩ := hu
        rw [updateBackend_once env d _ projectInfo projectInfo hrec (by simp) (by simp [hstored])
          (by simp) (by simp [hw]) (by simp) hjoin hu (by simpa using hpoll)]
        simp [countCallback, List.count_append, List.count_cons]
  · simp only [run, checkLatestInCloud, emit, hstored, hid, hcheck, if_true]
    refine ⟨?_, ?_, ?_, ?_⟩
    · refine le_trans (updateBackend_le env hrec _ (by simp [hw])) ?_
      simp [countCallback, List.count_append, List.count_cons]
    · intro h; simp at h
    · intro _ hno
      rw [updateBackend_nothing env _ projectInfo (by simp) (by simp) (by simpa using hno)]
      simp [countCallback, List.count_append, List.count_cons]
    · intro _ hyes hjoin hu hpoll
      obtain ⟨d, hu⟩ := hu
      rw [updateBackend_once env d _ projectInfo projectInfo hrec (by simp) (by simp [hstored])
        (by simp) (by simp [hw]) (by simpa using hyes) hjoin hu (by simpa using hpoll)]
      simp [countCallback, List.count_append, List.count_cons]

/-- Witness of `run_callback_at_most_once`: no conflict, an update is
needed, the hook reports, the submission returns details and the third
status answer is complete: the callback is called once. -/
theorem run_callback_at_most_once_witness :
    countCallback (run (sampleEnv false false (mobileAfter 2)) true none false
        (World.init (some sampleProject))).trace
      = countCallback (World.init (some sampleProject)).trace + 1 :=
  (run_callback_at_most_once (sampleEnv false false (mobileAfter 2)) none false
    (World.init (some sampleProject)) sampleProject rfl (by decide) rfl
    (by
      intro i g h
      by_cases hi : i < 2
      · simp [sampleEnv, mobileAfter, hi, stateGroupOf, sampleOps, sampleDetails] at h
        omega
      · simp [sampleEnv, mobileAfter, hi, stateGroupOf, sampleOps, sampleDetails] at h
        omega)).2.2.2
    (Or.inl rfl) (by decide) (by decide) ⟨_, rfl⟩
    (Or.inr ⟨2, by decide,
      by
        intro i hi
        simp [sampleEnv, World.init, mobileAfter, hi, stateGroupOf, sampleOps, sampleDetails],
      by simp [sampleEnv, World.init, mobileAfter, endsPoll, stateGroupOf, sampleOps,
        sampleDetails]⟩)

/-! ## Theorems: the outcomes of one status query -/

/-- C19: with `BackendLastUpdateSuccessful` true and no build directory,
`isNewUpdateNeeded` returns false for every last update time and every
modification time, valid or not. -/
theorem isNewUpdateNeeded_of_no_build_dir
    (lastBackendUpdateTime lastBackendBuildDirModificationTime : Moment) :
    isNewUpdateNeeded true false lastBackendUpdateTime
      lastBackendBuildDirModificationTime = false := by
  simp [isNewUpdateNeeded]

/-- C17: at every attempt that queries, when the query succeeds and its
formation state is classified in a group of the table of lines 276-280
(-1 to 2) other than -1, 0 and 1, the poller makes that one query, no
wait, and calls its callback once, with `{code: 2}` and the details the
query returned. -/
theorem cloudApiWaitLoop_terminal_failure (ops : OpsCloudApi) (mobile : Mobile)
    (param : Param) (bd d : BackendDetails) (loopCount : Nat) (w : World) (g : Int)
    (hlc : loopCount ≤ maxCloudApiWaitLoop) (hw : w.thrown = none)
    (hr : mobile.describeProject w.queries = DescribeResult.data d)
    (hg : stateGroupOf ops (DescribeResult.data d) = some g)
    (hrange : -1 ≤ g) (hm : g ≠ -1) (h0 : g ≠ 0) (h1 : g ≠ 1) :
    cloudApiWaitLoop ops mobile param bd loopCount report w =
      advance 1 [Event.describeProject param, Event.report (some ⟨2⟩) d] w := by
  obtain ⟨s, hs, he, hgs⟩ := stateGroupOf_data hg
  have hnot : ¬ loopCount > maxCloudApiWaitLoop := by omega
  have hneg : ¬ g < 0 := by omega
  rw [cloudApiWaitLoop]
  simp [hnot, describeProject, hr, hs, he, hgs, emit, advance, hneg, h0, h1, hw, report]

/-- Witness of `cloudApiWaitLoop_terminal_failure`: the status `"FAILED"`
(group 2) at attempt 5. -/
theorem cloudApiWaitLoop_terminal_failure_witness :
    cloudApiWaitLoop sampleOps (mobileAlways "FAILED") sampleParam (sampleDetails "x") 5 report
        (World.init (some sampleProject)) =
      advance 1
        [Event.describeProject sampleParam, Event.report (some ⟨2⟩) (sampleDetails "FAILED")]
        (World.init (some sampleProject)) :=
  cloudApiWaitLoop_terminal_failure sampleOps (mobileAlways "FAILED") sampleParam
    (sampleDetails "x") (sampleDetails "FAILED") 5 (World.init (some sampleProject)) 2
    (by decide) rfl rfl (by simp [stateGroupOf, sampleOps, sampleDetails])
    (by decide) (by decide) (by decide) (by decide)

/-- C18: at every attempt that queries, (1) when the query succeeds and
the formation state is absent from its answer (`getFormationStateSummary`
returns nothing or the empty string), the poller makes that one query and
calls its callback once, with `{code: -2}` and the details of the answer;
(2) when the query fails, the poller makes that one query and calls its
callback once, with `{code: 0}` and the details it held before the query.
No wait and no further query follows. -/
theorem cloudApiWaitLoop_missing_or_failed (ops : OpsCloudApi) (mobile : Mobile)
    (param : Param) (bd : BackendDetails) (loopCount : Nat) (w : World)
    (hlc : loopCount ≤ maxCloudApiWaitLoop) :
    (∀ d, mobile.describeProject w.queries = DescribeResult.data d →
      (ops.getFormationStateSummary d = none ∨ ops.getFormationStateSummary d = some "") →
      cloudApiWaitLoop ops mobile param bd loopCount report w =
        advance 1 [Event.describeProject param, Event.report (some ⟨-2⟩) d] w) ∧
    (mobile.describeProject w.queries = DescribeResult.err →
      cloudApiWaitLoop ops mobile param bd loopCount report w =
        advance 1
          [Event.describeProject param, Event.handleMobileException,
            Event.report (some ⟨0⟩) bd] w) := by
  have hnot : ¬ loopCount > maxCloudApiWaitLoop := by omega
  constructor
  · intro d hr habsent
    rw [cloudApiWaitLoop]
    rcases habsent with hs | hs <;>
      simp [hnot, describeProject, hr, hs, emit, advance, report]
  · intro hr
    rw [cloudApiWaitLoop]
    simp [hnot, describeProject, hr, emit, advance, report]

/-- Witness of `cloudApiWaitLoop_missing_or_failed`: at attempt 3, a query
that is rejected: one report, `{code: 0}`, with the details held before. -/
theorem cloudApiWaitLoop_missing_or_failed_witness :
    cloudApiWaitLoop sampleOps
        { updateProject := UpdateResult.err, describeProject := fun _ => DescribeResult.err }
        sampleParam (sampleDetails "x") 3 report (World.init (some sampleProject)) =
      advance 1
        [Event.describeProject sampleParam, Event.handleMobileException,
          Event.report (some ⟨0⟩) (sampleDetails "x")]
        (World.init (some sampleProject)) :=
  (cloudApiWaitLoop_missing_or_failed sampleOps
    { updateProject := UpdateResult.err, describeProject := fun _ => DescribeResult.err }
    sampleParam (sampleDetails "x") 3 (World.init (some sampleProject)) (by decide)).2 rfl

/-! ## Theorems: when the poller runs -/

/-- C20: (1) when the cloud-api feature is not among the enabled features
(also when none is enabled, or the list is absent), `waitForCloudAPIComplete`
is one call of its callback with a null error and the submitted details,
in the unchanged world, whatever `_waitFlag` is: no status query is made.
(2) The same holds when the feature is enabled and `_waitFlag` is negative.
(3) When the feature is enabled and `_waitFlag` is absent or not negative,
it is the poll `cloudApiWaitLoop` started at attempt 1. -/
theorem waitForCloudAPIComplete_polls_iff (ops : OpsCloudApi) (mobile : Mobile)
    (backendDetails : BackendDetails) (w : World) :
    ((∀ fs, w._enabledFeatures = some fs → ops.featureName ∉ fs) →
      ∀ k : Callback,
        waitForCloudAPIComplete ops mobile backendDetails k w = k none backendDetails w) ∧
    (∀ fs f, w._enabledFeatures = some fs → ops.featureName ∈ fs →
      w._waitFlag = some f → f < 0 →
      ∀ k : Callback,
        waitForCloudAPIComplete ops mobile backendDetails k w = k none backendDetails w) ∧
    (∀ fs projectInfo, w._enabledFeatures = some fs → ops.featureName ∈ fs →
      (∀ f, w._waitFlag = some f → 0 ≤ f) → w._projectInfo = some projectInfo →
      ∀ k : Callback,
        waitForCloudAPIComplete ops mobile backendDetails k w =
          cloudApiWaitLoop ops mobile
            { projectId := projectInfo.BackendProjectID, syncFromResources := true }
            backendDetails 1 k w) := by
  refine ⟨?_, ?_, ?_⟩
  · intro hoff k
    unfold waitForCloudAPIComplete
    cases hf : w._enabledFeatures with
    | none => simp
    | some fs => simp [hoff fs hf]
  · intro fs f hf hmem hwf hneg k
    have hne : f ≠ 0 := by omega
    unfold waitForCloudAPIComplete
    split
    · simp [hwf, hne, hneg]
    · rfl
  · intro fs projectInfo hf hmem hwf hp k
    have hlen : 0 < fs.length := List.length_pos_of_mem hmem
    unfold waitForCloudAPIComplete
    cases hw : w._waitFlag with
    | none => simp [hf, hmem, hlen, hp]
    | some f =>
      have := hwf f hw
      have hnn : ¬ f < 0 := by omega
      simp [hf, hmem, hlen, hp, hnn]

/-- Witness of `waitForCloudAPIComplete_polls_iff`: only the feature
`"hosting"` is enabled and `_waitFlag` is 1: the callback is called at
once, with a null error and the submitted details. -/
theorem waitForCloudAPIComplete_polls_iff_witness :
    waitForCloudAPIComplete sampleOps (mobileAlways "IN_PROGRESS") (sampleDetails "IN_PROGRESS")
        report { sampleWorld with _waitFlag := some 1, _enabledFeatures := some ["hosting"] }
      = report none (sampleDetails "IN_PROGRESS")
          { sampleWorld with _waitFlag := some 1, _enabledFeatures := some ["hosting"] } :=
  (waitForCloudAPIComplete_polls_iff sampleOps (mobileAlways "IN_PROGRESS")
    (sampleDetails "IN_PROGRESS")
    { sampleWorld with _waitFlag := some 1, _enabledFeatures := some ["hosting"] }).1
    (by
      intro fs hfs
      have h : fs = ["hosting"] := by
        simpa using hfs.symm
      subst h
      simp [sampleOps])
    report

/-! ## Theorems: the record of the outcome -/

/-- C11: when `updateProject` returns details, `updateBackendProject`
reloads the project record and hands the callback of lines 208-227 to
`waitForCloudAPIComplete`; for every result `err` of the poller, that
callback writes the project record with `BackendLastUpdateTime` set to the
current time and `BackendLastUpdateSuccessful` true exactly when `err` is
null, then syncs the backend details and calls the completion callback if
there is one. -/
theorem updateBackendProject_persists (env : Env) (w : World)
    (projectInfo stored : ProjectInfo) (d : BackendDetails)
    (hp : w._projectInfo = some projectInfo) (hs : w.stored = some stored)
    (hu : env.mobile.updateProject = UpdateResult.data (some d)) :
    updateBackendProject env w =
        waitForCloudAPIComplete env.ops env.mobile d (onCloudAPIComplete env)
          { w with _projectInfo := some stored,
                   trace := w.trace ++ [Event.readFileSync,
                     Event.updateProject projectInfo.BackendProjectID] } ∧
    ∀ (err : Option PollError) (backendDetails : BackendDetails) (w2 : World)
      (p : ProjectInfo), w2._projectInfo = some p →
      (onCloudAPIComplete env err backendDetails w2).stored =
          some { p with BackendLastUpdateTime := env.now,
                        BackendLastUpdateSuccessful := err.isNone } ∧
      (onCloudAPIComplete env err backendDetails w2).trace =
          w2.trace ++
            [Event.setProjectInfo { p with BackendLastUpdateTime := env.now,
                                           BackendLastUpdateSuccessful := err.isNone },
              Event.syncCurrentBackendInfo backendDetails] ++
            (if w2._callback then [Event.callback] else []) := by
  constructor
  · unfold updateBackendProject
    simp [hp, hu, hs, emit]
  · intro err backendDetails w2 p hp2
    unfold onCloudAPIComplete
    cases err <;> cases hc : w2._callback <;> simp [hp2, setProjectInfo, emit, hc]

/-- Witness of `updateBackendProject_persists`: the poller reports
`{code: 2}`, the record is written with `BackendLastUpdateSuccessful`
false and the current time. -/
theorem updateBackendProject_persists_witness :
    (onCloudAPIComplete (sampleEnv false false (mobileAfter 0)) (some ⟨2⟩)
        (sampleDetails "FAILED") sampleWorld).stored =
      some { sampleProject with BackendLastUpdateTime := "2018-02-02-00-00-00",
                                BackendLastUpdateSuccessful := false } :=
  ((updateBackendProject_persists (sampleEnv false false (mobileAfter 0)) sampleWorld
    sampleProject sampleProject (sampleDetails "IN_PROGRESS") rfl rfl rfl).2
    (some ⟨2⟩) (sampleDetails "FAILED") sampleWorld sampleProject rfl).1

/-- C12: when `updateProject` fails, `updateBackendProject` makes these
calls only: `readFileSync`, `updateProject` (once), the exception handler
and `setProjectInfo` with the reloaded record in which
`BackendLastUpdateTime` is the current time and
`BackendLastUpdateSuccessful` is false; that record is the one stored
afterwards, and no status query is made. -/
theorem updateBackendProject_submission_failed (env : Env) (w : World)
    (projectInfo stored : ProjectInfo)
    (hp : w._projectInfo = some projectInfo) (hs : w.stored = some stored)
    (hu : env.mobile.updateProject = UpdateResult.err) :
    (updateBackendProject env w).trace =
        w.trace ++
          [Event.readFileSync, Event.updateProject projectInfo.BackendProjectID,
            Event.handleMobileException,
            Event.setProjectInfo { stored with BackendLastUpdateTime := env.now,
                                               BackendLastUpdateSuccessful := false }] ∧
      (updateBackendProject env w).stored =
        some { stored with BackendLastUpdateTime := env.now,
                           BackendLastUpdateSuccessful := false } ∧
      (updateBackendProject env w).queries = w.queries ∧
      (updateBackendProject env w).thrown = w.thrown := by
  unfold updateBackendProject
  simp [hp, hu, hs, emit, setProjectInfo]

/-- Witness of `updateBackendProject_submission_failed`: a service that
rejects the submission. -/
theorem updateBackendProject_submission_failed_witness :
    (updateBackendProject (sampleEnv false false mobileFailing) sampleWorld).stored =
        some { sampleProject with BackendLastUpdateTime := "2018-02-02-00-00-00",
                                  BackendLastUpdateSuccessful := false } ∧
      (updateBackendProject (sampleEnv false false mobileFailing) sampleWorld).queries = 0 :=
  have h := updateBackendProject_submission_failed (sampleEnv false false mobileFailing)
    sampleWorld sampleProject sampleProject rfl rfl rfl
  ⟨h.2.1, h.2.2.1⟩

/-! ## Theorems: the gates of the orchestrator -/

/-- C15: after the build, `updateBackend` evaluates `isNewUpdateNeeded`;
when it is true or `_forcedPushFlag` is set, it goes on with
`preUpdateAction`; when it is false and the flag is not set, the run ends
there: the only further call is the completion callback (if one was
given), so no hook is started, nothing is submitted and the project record
is not written. -/
theorem updateBackend_gate (env : Env) (w : World) (projectInfo : ProjectInfo)
    (hp : w._projectInfo = some projectInfo) :
    ((isNewUpdateNeeded projectInfo.BackendLastUpdateSuccessful env.existsSync
          (env.parseTime projectInfo.BackendLastUpdateTime) env.dirContentMTime
        || w._forcedPushFlag) = true →
      updateBackend env w =
        preUpdateAction env
          { w with trace := w.trace ++
              [Event.build,
                Event.isNewUpdateNeeded
                  (isNewUpdateNeeded projectInfo.BackendLastUpdateSuccessful env.existsSync
                    (env.parseTime projectInfo.BackendLastUpdateTime) env.dirContentMTime)] }) ∧
    ((isNewUpdateNeeded projectInfo.BackendLastUpdateSuccessful env.existsSync
          (env.parseTime projectInfo.BackendLastUpdateTime) env.dirContentMTime
        || w._forcedPushFlag) = false →
      updateBackend env w =
        { w with trace := w.trace ++ [Event.build, Event.isNewUpdateNeeded false] ++
            (if w._callback then [Event.callback] else []) }) := by
  constructor
  · intro h
    unfold updateBackend
    simp only [emit, hp, h, if_true]
    simp
  · intro h
    have hn : isNewUpdateNeeded projectInfo.BackendLastUpdateSuccessful env.existsSync
        (env.parseTime projectInfo.BackendLastUpdateTime) env.dirContentMTime = false := by
      cases hno : isNewUpdateNeeded projectInfo.BackendLastUpdateSuccessful env.existsSync
        (env.parseTime projectInfo.BackendLastUpdateTime) env.dirContentMTime
      · rfl
      · rw [hno] at h; simp at h
    unfold updateBackend
    simp only [emit, hp, h, Bool.false_eq_true, if_false]
    cases hc : w._callback <;> simp [hn]

/-- Witness of `updateBackend_gate`: the build directory is older than the
last successful update and the flag is not set: build, staleness check,
completion callback, and nothing else. -/
theorem updateBackend_gate_witness :
    updateBackend
        { sampleEnv false false (mobileAfter 0) with dirContentMTime := some 0 } sampleWorld =
      { sampleWorld with trace := sampleWorld.trace ++
          [Event.build, Event.isNewUpdateNeeded false] ++
          (if sampleWorld._callback then [Event.callback] else []) } :=
  (updateBackend_gate
    { sampleEnv false false (mobileAfter 0) with dirContentMTime := some 0 } sampleWorld
    sampleProject rfl).2 (by decide)

/-- C16, as stated, fails: entered with `_forcedPushFlag` already true,
with the remote project ahead of the local record, `checkLatestInCloud`
still prompts for the forced push and, when the user declines, does not
proceed to its continuation (no build follows). -/
theorem checkLatestInCloud_flag_suppresses_fails :
    ({ sampleWorld with _forcedPushFlag := true } : World)._forcedPushFlag = true ∧
    (checkLatestInCloud (sampleEnv true false (mobileAfter 0))
        (fun w => updateBackend (sampleEnv true false (mobileAfter 0)) w)
        { sampleWorld with _forcedPushFlag := true }).trace =
      [Event.getLatestBackendDetails "id-1", Event.prompt "forcePush",
        Event.prompt "openConsole"] := by
  constructor
  · rfl
  · simp [checkLatestInCloud, sampleEnv, sampleWorld, World.init, sampleProject, emit]

/-- C16, amended: `checkLatestInCloud` does not read `_forcedPushFlag`.
Whatever the flag is, it proceeds to its continuation without a prompt
when `checkBackendProjectLastUpdateTime` is true; otherwise it prompts,
and when the user confirms it sets the flag and proceeds, without a second
evaluation of the check, and when the user declines it stops.  With the
flag set, `updateBackend` goes on with `preUpdateAction` whatever
`isNewUpdateNeeded` returns. -/
theorem checkLatestInCloud_flag (env : Env) (k : World → World) (w : World)
    (projectInfo : ProjectInfo) (hp : w._projectInfo = some projectInfo) :
    (env.checkBackendProjectLastUpdateTime projectInfo env.latestBackendDetails = true →
      checkLatestInCloud env k w =
        k { w with _backendProjectDetails := some env.latestBackendDetails,
                   trace := w.trace ++
                     [Event.getLatestBackendDetails projectInfo.BackendProjectID,
                       Event.setBackendDetails projectInfo.ProjectPath
                         env.latestBackendDetails true] }) ∧
    (env.checkBackendProjectLastUpdateTime projectInfo env.latestBackendDetails = false →
      env.forcePush = true →
      checkLatestInCloud env k w =
        k { w with _backendProjectDetails := some env.latestBackendDetails,
                   _forcedPushFlag := true,
                   trace := w.trace ++
                     [Event.getLatestBackendDetails projectInfo.BackendProjectID,
                       Event.prompt "forcePush",
                       Event.setBackendDetails projectInfo.ProjectPath
                         env.latestBackendDetails true] }) ∧
    (env.checkBackendProjectLastUpdateTime projectInfo env.latestBackendDetails = false →
      env.forcePush = false →
      checkLatestInCloud env k w =
        { w with _backendProjectDetails := some env.latestBackendDetails,
                 trace := w.trace ++
                   [Event.getLatestBackendDetails projectInfo.BackendProjectID,
                     Event.prompt "forcePush", Event.prompt "openConsole"] ++
                   (if env.openConsole then [Event.opn env.latestBackendDetails.consoleUrl]
                    else []) }) ∧
    (∀ (w2 : World) (p : ProjectInfo), w2._projectInfo = some p → w2._forcedPushFlag = true →
      updateBackend env w2 =
        preUpdateAction env
          { w2 with trace := w2.trace ++
              [Event.build,
                Event.isNewUpdateNeeded
                  (isNewUpdateNeeded p.BackendLastUpdateSuccessful env.existsSync
                    (env.parseTime p.BackendLastUpdateTime) env.dirContentMTime)] }) := by
  refine ⟨?_, ?_, ?_, ?_⟩
  · intro hc
    simp [checkLatestInCloud, hp, hc, emit]
  · intro hc hf
    simp [checkLatestInCloud, hp, hc, hf, emit]
  · intro hc hf
    cases ho : env.openConsole <;> simp [checkLatestInCloud, hp, hc, hf, ho, emit]
  · intro w2 p hp2 hflag
    unfold updateBackend
    simp only [emit, hp2, hflag, Bool.or_true, if_true]
    simp

/-- Witness of `checkLatestInCloud_flag`: the remote project is ahead and
the user confirms: one prompt, then the continuation runs with the flag
set. -/
theorem checkLatestInCloud_flag_witness :
    checkLatestInCloud (sampleEnv true true (mobileAfter 0)) (fun w => w) sampleWorld =
      { sampleWorld with
        _backendProjectDetails := some (sampleEnv true true (mobileAfter 0)).latestBackendDetails,
        _forcedPushFlag := true,
        trace := sampleWorld.trace ++
          [Event.getLatestBackendDetails sampleProject.BackendProjectID,
            Event.prompt "forcePush",
            Event.setBackendDetails sampleProject.ProjectPath
              (sampleEnv true true (mobileAfter 0)).latestBackendDetails true] } :=
  (checkLatestInCloud_flag (sampleEnv true true (mobileAfter 0)) (fun w => w) sampleWorld
    sampleProject rfl).2.1 rfl rfl

/-! ## Theorems: the join of the pre-update hooks -/

/-- C14: when the enabled features are absent or empty, `preUpdateAction`
is `updateBackendProject` on the world it was entered with: its first two
calls are `readFileSync` and `updateProject`, and every later call is of
the poll phase, so `updateProject` is called once and no hook is started;
the reports of hooks are not consulted. -/
theorem preUpdateAction_no_features (env : Env) (w : World) (projectInfo : ProjectInfo)
    (hp : w._projectInfo = some projectInfo)
    (hnone : env.enabledFeatures = none ∨ env.enabledFeatures = some []) :
    preUpdateAction env w =
        updateBackendProject env { w with _enabledFeatures := env.enabledFeatures } ∧
    ∃ calls : List Event,
      (preUpdateAction env w).trace =
        w.trace ++
          Event.readFileSync :: Event.updateProject projectInfo.BackendProjectID :: calls ∧
      (∀ e ∈ calls, isPollPhase e = true) := by
  have heq : preUpdateAction env w =
      updateBackendProject env { w with _enabledFeatures := env.enabledFeatures } := by
    unfold preUpdateAction
    rcases hnone with h | h <;> simp [h]
  refine ⟨heq, ?_⟩
  obtain ⟨calls, ht, hpoll, _⟩ := updateBackendProject_calls env
    { w with _enabledFeatures := env.enabledFeatures } projectInfo hp
  exact ⟨calls, by rw [heq, ht], hpoll⟩

/-- Witness of `preUpdateAction_no_features`: no feature is enabled, a hook
report is pending and the service rejects the submission. -/
theorem preUpdateAction_no_features_witness :
    preUpdateAction { twoHookEnv ["a"] with enabledFeatures := some [] } sampleWorld =
      updateBackendProject { twoHookEnv ["a"] with enabledFeatures := some [] }
        { sampleWorld with _enabledFeatures := some [] } :=
  (preUpdateAction_no_features { twoHookEnv ["a"] with enabledFeatures := some [] }
    sampleWorld sampleProject rfl (Or.inr rfl)).1

/-- C13, as stated, fails: with the enabled features `"a"` and `"b"`, the
upload is started as soon as `count` reaches 2 although the hook of `"b"`
has not reported: (1) when the hook of `"a"` calls its callback twice
after the `forEach`; (2) when it calls it twice while it is being started,
and then the upload is started before the hook of `"b"` is. -/
theorem preUpdateAction_waits_for_all_fails :
    (twoHookEnv ["a", "a"]).enabledFeatures = some ["a", "b"] ∧
    "b" ∉ (twoHookEnv ["a", "a"]).hookReports ∧
    (twoHookEnv ["a", "a"]).hookSyncCalls "b" = 0 ∧
    (preUpdateAction (twoHookEnv ["a", "a"]) sampleWorld).trace =
      [Event.preBackendUpdate "a", Event.preBackendUpdate "b", Event.readFileSync,
        Event.updateProject "id-1", Event.handleMobileException,
        Event.setProjectInfo { sampleProject with
          BackendLastUpdateTime := "2018-02-02-00-00-00",
          BackendLastUpdateSuccessful := false }] ∧
    eagerHookEnv.enabledFeatures = some ["a", "b"] ∧
    "b" ∉ eagerHookEnv.hookReports ∧
    eagerHookEnv.hookSyncCalls "b" = 0 ∧
    (preUpdateAction eagerHookEnv sampleWorld).trace =
      [Event.preBackendUpdate "a", Event.readFileSync,
        Event.updateProject "id-1", Event.handleMobileException,
        Event.setProjectInfo { sampleProject with
          BackendLastUpdateTime := "2018-02-02-00-00-00",
          BackendLastUpdateSuccessful := false },
        Event.preBackendUpdate "b"] := by
  refine ⟨rfl, by decide, rfl, ?_, rfl, by decide, rfl, ?_⟩
  · simp [preUpdateAction, forEachHook, hookCallbacks, updateBackendProject, twoHookEnv,
      sampleEnv, mobileFailing, sampleWorld, World.init, sampleProject, emit, setProjectInfo]
  · simp [preUpdateAction, forEachHook, hookCallbacks, updateBackendProject, eagerHookEnv,
      twoHookEnv, sampleEnv, mobileFailing, sampleWorld, World.init, sampleProject, emit,
      setProjectInfo, List.replicate]

/-- C13, amended: with a non-empty list `fs` of enabled features, whatever
the hooks do (calling back while they are started or later, any number of
times), `preUpdateAction` starts the upload when the number of callbacks
reaches the number of enabled features, and only then.  (1) While the
callbacks made while the hooks were started, together with the later
reports, are fewer than the enabled features, every hook has been started
and nothing else is called.  (2) When the callbacks made while the hooks
were started are fewer than the enabled features and the later reports
fill the count, every hook is started first and then the upload is
started, once.  (3) When the count is reached by the callbacks of the hook
of `f` while it is being started, the upload is started then, once, after
the hooks before `f` and `f` were started, and the later hooks are started
after it, unless it threw.  (4) So when no hook calls back more than once
(at most once while started, the later reports come from different enabled
features whose hooks did not call back while started), the upload is not
started while the hook of some enabled feature has not reported. -/
theorem preUpdateAction_join (env : Env) (w : World) (projectInfo : ProjectInfo)
    (fs : List String) (hp : w._projectInfo = some projectInfo) (hw : w.thrown = none)
    (hf : env.enabledFeatures = some fs) (hlen : 0 < fs.length) :
    (syncCalls env fs + env.hookReports.length < fs.length →
      preUpdateAction env w =
        advance 0 (fs.map Event.preBackendUpdate) { w with _enabledFeatures := some fs }) ∧
    (syncCalls env fs < fs.length → fs.length ≤ syncCalls env fs + env.hookReports.length →
      ∃ calls : List Event,
        (preUpdateAction env w).trace =
          w.trace ++ fs.map Event.preBackendUpdate ++
            Event.readFileSync :: Event.updateProject projectInfo.BackendProjectID :: calls ∧
        (∀ e ∈ calls, isPollPhase e = true)) ∧
    (∀ before f later, fs = before ++ f :: later → syncCalls env before < fs.length →
      fs.length ≤ syncCalls env before + env.hookSyncCalls f →
      ∃ calls : List Event,
        (preUpdateAction env w).trace =
          w.trace ++ (before ++ [f]).map Event.preBackendUpdate ++
            Event.readFileSync :: Event.updateProject projectInfo.BackendProjectID :: calls ++
            (if (preUpdateAction env w).thrown.isSome then []
             else later.map Event.preBackendUpdate) ∧
        (∀ e ∈ calls, isPollPhase e = true)) ∧
    ((∀ f ∈ fs, env.hookSyncCalls f ≤ 1) → env.hookReports.Nodup →
      (∀ r ∈ env.hookReports, r ∈ fs ∧ env.hookSyncCalls r = 0) →
      (∃ f ∈ fs, env.hookSyncCalls f = 0 ∧ f ∉ env.hookReports) →
      preUpdateAction env w =
        advance 0 (fs.map Event.preBackendUpdate) { w with _enabledFeatures := some fs }) := by
  obtain ⟨h1, h2, h3⟩ := preUpdateAction_shape env w projectInfo fs hp hw hf hlen
  refine ⟨h1, ?_, ?_, ?_⟩
  · intro hsync hle
    rw [h2 hsync hle]
    obtain ⟨calls, ht, hpoll, _⟩ := updateBackendProject_calls env
      (advance 0 (fs.map Event.preBackendUpdate) { w with _enabledFeatures := some fs })
      projectInfo (by simp [advance, hp])
    exact ⟨calls, by rw [ht]; simp [advance], hpoll⟩
  · intro before f later hsplit hlt hle
    rw [h3 before f later hsplit hlt hle]
    obtain ⟨calls, ht, hpoll, _⟩ := updateBackendProject_calls env
      (advance 0 ((before ++ [f]).map Event.preBackendUpdate)
        { w with _enabledFeatures := some fs })
      projectInfo (by simp [advance, hp])
    refine ⟨calls, ?_, hpoll⟩
    by_cases hthrown : (updateBackendProject env
        (advance 0 ((before ++ [f]).map Event.preBackendUpdate)
          { w with _enabledFeatures := some fs })).thrown.isSome = true
    · simp only [hthrown, if_true, List.append_nil]
      rw [ht]
      simp [advance]
    · have hthrown2 : (advance 0 (later.map Event.preBackendUpdate)
          (updateBackendProject env
            (advance 0 ((before ++ [f]).map Event.preBackendUpdate)
              { w with _enabledFeatures := some fs }))).thrown.isSome = false := by
        simpa [advance] using hthrown
      simp only [hthrown, if_false, hthrown2, Bool.false_eq_true]
      show (updateBackendProject env _).trace ++ _ = _
      rw [ht]
      simp [advance]
  · intro hone hnodup hsub hmissing
    apply h1
    obtain ⟨f, hfmem, hfsync, hfnot⟩ := hmissing
    have hcount : ∀ gs : List String, (∀ g ∈ gs, env.hookSyncCalls g ≤ 1) →
        syncCalls env gs + (gs.filter (fun g => env.hookSyncCalls g = 0)).length
          = gs.length := by
      intro gs
      induction gs with
      | nil => intro _; simp [syncCalls]
      | cons g rest ih =>
        intro hg
        have hrest := ih (fun x hx => hg x (List.mem_cons_of_mem g hx))
        have hg1 := hg g (List.mem_cons_self g rest)
        rw [syncCalls_cons]
        by_cases h0 : env.hookSyncCalls g = 0
        · simp only [List.filter_cons, h0, decide_True, if_true, List.length_cons]
          omega
        · simp only [List.filter_cons, h0, decide_False, Bool.false_eq_true, if_false,
            List.length_cons]
          omega
    have hsubset : env.hookReports ⊆
        (fs.filter (fun g => env.hookSyncCalls g = 0)).erase f := by
      intro r hr
      have hne : r ≠ f := fun h => hfnot (h ▸ hr)
      exact (List.mem_erase_of_ne hne).mpr
        (List.mem_filter.mpr ⟨(hsub r hr).1, by simp [(hsub r hr).2]⟩)
    have hfilter : f ∈ fs.filter (fun g => env.hookSyncCalls g = 0) :=
      List.mem_filter.mpr ⟨hfmem, by simp [hfsync]⟩
    have hle := (List.subperm_of_subset hnodup hsubset).length_le
    rw [List.length_erase_of_mem hfilter] at hle
    have hpos : 0 < (fs.filter (fun g => env.hookSyncCalls g = 0)).length :=
      List.length_pos_of_mem hfilter
    have := hcount fs hone
    omega

/-- Witness of `preUpdateAction_join`: of the enabled features `"a"` and
`"b"` only the hook of `"a"` has reported, once: the hooks are started and
nothing else is called. -/
theorem preUpdateAction_join_witness :
    preUpdateAction (twoHookEnv ["a"]) sampleWorld =
      advance 0 (["a", "b"].map Event.preBackendUpdate)
        { sampleWorld with _enabledFeatures := some ["a", "b"] } :=
  (preUpdateAction_join (twoHookEnv ["a"]) sampleWorld sampleProject ["a", "b"] rfl rfl rfl
    (by decide)).2.2.2 (by intro f _; exact Nat.zero_le 1) (by decide)
    (by
      intro r hr
      have h : r = "a" := by simpa [twoHookEnv] using hr
      subst h
      exact ⟨by decide, rfl⟩)
    ⟨"b", by decide, rfl, by decide⟩

end BackendUpdate
